import Mathlib

/-!
Verification model of the diskord repository core: the trash subsystem
(src/system.rs), the directory size scanner (src/scanner.rs) and the
selection and confirmation workflow of the App state machine (src/main.rs).

Filesystem embedding: an absolute path is a list of components; a filesystem
is a finite list of (path, node) entries, where a node is a regular file
(carrying its content, whose length is its size in bytes), a directory
(carrying a readability flag modelling permission to list it), or a
non-regular object (symlink, device, and so on).  Lookup takes the first
matching entry.  The fallible operations of std::fs are modelled as explicit
state passing: each returns the new filesystem together with an Except value,
threading any mutations performed before an error, exactly as the Rust code
performs them through side effects.  External effects that the code treats as
opaque (pkexec rm -rf for privileged removal) are modelled as a recursive
remove that succeeds.
-/

/-- A filesystem path, as its list of components below the root. -/
abbrev FsPath := List String

/-- One filesystem object: a regular file with its content, a directory with
a readability (permission) flag, or a non-regular object. -/
inductive Node
  | file (data : String)
  | dir (readable : Bool)
  | other
deriving DecidableEq

/-- A filesystem: a finite list of path-to-node entries. -/
structure Fs where
  entries : List (FsPath × Node)
deriving DecidableEq

/-- First-match lookup in an entry list. -/
def lookupEntries : List (FsPath × Node) → FsPath → Option Node
  | [], _ => none
  | (q, n) :: rest, p => if q = p then some n else lookupEntries rest p

/-- The node stored at a path, if any. -/
def Fs.get (fs : Fs) (p : FsPath) : Option Node :=
  lookupEntries fs.entries p

/-- Models FsPath::exists. -/
def Fs.pathExists (fs : Fs) (p : FsPath) : Bool :=
  (fs.get p).isSome

/-- Models FsPath::is_dir: the path currently names a directory. -/
def Fs.isDir (fs : Fs) (p : FsPath) : Bool :=
  match fs.get p with
  | some (.dir _) => true
  | _ => false

/-- Models std::fs::remove_file used in best-effort position: drop the entry
at exactly this path. -/
def Fs.eraseFile (fs : Fs) (p : FsPath) : Fs :=
  ⟨fs.entries.filter (fun e => !(decide (e.1 = p)))⟩

/-- Models std::fs::remove_dir_all and pkexec rm -rf in best-effort position:
drop the whole subtree rooted at this path. -/
def Fs.eraseTree (fs : Fs) (p : FsPath) : Fs :=
  ⟨fs.entries.filter (fun e => !(p.isPrefixOf e.1))⟩

/-- Insert or replace the node stored at a path. -/
def Fs.insertNode (fs : Fs) (p : FsPath) (n : Node) : Fs :=
  ⟨(p, n) :: (fs.eraseFile p).entries⟩

/-- Models std::fs::write of a fresh file (the parent directory is known to
exist at every call site, so the write itself always succeeds). -/
def Fs.writeFile (fs : Fs) (p : FsPath) (data : String) : Fs :=
  fs.insertNode p (.file data)

/-- Helper for create_dir_all: walk the component chain, creating each
missing ancestor as a readable directory and failing on a non-directory. -/
def createDirAllAux : Fs → FsPath → List String → Except String Fs
  | fs, _, [] => .ok fs
  | fs, pre, c :: rest =>
    match fs.get (pre ++ [c]) with
    | some (.dir _) => createDirAllAux fs (pre ++ [c]) rest
    | none => createDirAllAux (fs.insertNode (pre ++ [c]) (.dir true)) (pre ++ [c]) rest
    | some _ => .error "create_dir_all: a path component is not a directory"

/-- Models std::fs::create_dir_all. -/
def Fs.createDirAll (fs : Fs) (p : FsPath) : Except String Fs :=
  createDirAllAux fs [] p

/-- Models std::fs::rename with same-filesystem POSIX semantics restricted to
the shapes the program uses: the source must exist, the destination must not
lie inside the source, must be free, and its parent must be a directory (or
the root).  On success the whole source subtree is remapped below the
destination. -/
def Fs.rename (fs : Fs) (src dst : FsPath) : Except String Fs :=
  if (fs.get src).isNone then .error "rename: source does not exist"
  else if src.isPrefixOf dst then .error "rename: destination is inside source"
  else if (fs.get dst).isSome then .error "rename: destination exists"
  else if !(decide (dst.dropLast = []) || fs.isDir dst.dropLast) then
    .error "rename: destination parent missing"
  else
    .ok ⟨fs.entries.map (fun e =>
      if src.isPrefixOf e.1 then (dst ++ e.1.drop src.length, e.2) else e)⟩

/-- Well-formedness of a filesystem snapshot: every proper ancestor of every
entry is present as a directory.  Real filesystems always satisfy this. -/
def Fs.wf (fs : Fs) : Bool :=
  fs.entries.all (fun e =>
    (List.range e.1.length).all (fun k =>
      decide (k = 0) ||
      match fs.get (e.1.take k) with
      | some (.dir _) => true
      | _ => false))

/-- Ambient process environment: the resolved home directory
(dirs::home_dir), the local data directory (dirs::data_local_dir) and the
current local timestamp string (chrono::Local::now formatted). -/
structure Env where
  home : FsPath
  dataLocal : FsPath
  now : String

/-- The trash staging root, dataLocal/Trash. -/
def trashRoot (env : Env) : FsPath := env.dataLocal ++ ["Trash"]

/-- The file storage area, dataLocal/Trash/files. -/
def filesDir (env : Env) : FsPath := trashRoot env ++ ["files"]

/-- The metadata sidecar area, dataLocal/Trash/info. -/
def infoDir (env : Env) : FsPath := trashRoot env ++ ["info"]

/-- Record of one deletion performed through the trash path
(struct TrashedItem in src/system.rs). -/
structure TrashedItem where
  original_path : FsPath
  trash_file_path : FsPath
  trash_info_path : FsPath
  is_root : Bool
deriving DecidableEq

/-- Content of the .trashinfo metadata sidecar written by move_to_trash. -/
def infoContent (p : FsPath) (now : String) : String :=
  "[Trash Info]\nPath=/" ++ String.intercalate "/" p ++ "\nDeletionDate=" ++ now ++ "\n"

/-- Whether a candidate staged name is free: neither the candidate file
storage path nor the candidate metadata path exists. -/
def trashNameFree (fs : Fs) (fdir idir : FsPath) (cand : String) : Bool :=
  !(fs.pathExists (fdir ++ [cand]) || fs.pathExists (idir ++ [cand ++ ".trashinfo"]))

/-- The collision-resolution loop of move_to_trash: starting from the plain
file name, append an incrementing numeric suffix until both candidate paths
are free.  The Rust loop is unbounded; here it carries fuel, always called
with more fuel than the filesystem has entries, which is sufficient. -/
def findSafeName (fs : Fs) (fdir idir : FsPath) (fileName : String) :
    String → Nat → Nat → Option String
  | cand, _, 0 =>
    if trashNameFree fs fdir idir cand then some cand else none
  | cand, counter, fuel + 1 =>
    if trashNameFree fs fdir idir cand then some cand
    else findSafeName fs fdir idir fileName
      (fileName ++ "_" ++ Nat.repr counter) (counter + 1) fuel

/-- Models move_to_trash (src/system.rs).  A path outside the home boundary
is removed immediately and permanently through the privileged helper;
otherwise the staging area is ensured, a collision-free staged name is
derived, the metadata sidecar is written, and the source is renamed into the
file storage area, removing the sidecar again if the rename fails. -/
def move_to_trash (env : Env) (fs : Fs) (original_path : FsPath) :
    Fs × Except String TrashedItem :=
  let is_root := !(env.home.isPrefixOf original_path)
  if is_root then
    (fs.eraseTree original_path,
     .ok ⟨original_path, [], [], true⟩)
  else
    match fs.createDirAll (filesDir env) with
    | .error e => (fs, .error e)
    | .ok fs1 =>
      match fs1.createDirAll (infoDir env) with
      | .error e => (fs1, .error e)
      | .ok fs2 =>
        let fileName := (original_path.getLast?).getD ""
        match findSafeName fs2 (filesDir env) (infoDir env) fileName
            fileName 1 (fs2.entries.length + 1) with
        | none => (fs2, .error "collision suffixes exhausted")
        | some safe =>
          let tfp := filesDir env ++ [safe]
          let tip := infoDir env ++ [safe ++ ".trashinfo"]
          let fs3 := fs2.writeFile tip (infoContent original_path env.now)
          match fs3.rename original_path tfp with
          | .error e => (fs3.eraseFile tip, .error ("Failed to move to trash: " ++ e))
          | .ok fs4 => (fs4, .ok ⟨original_path, tfp, tip, false⟩)

/-- Models restore_trash_item (src/system.rs): refuse is_root items,
recreate the original parent chain, rename the staged file back, then
best-effort remove the metadata sidecar. -/
def restore_trash_item (fs : Fs) (item : TrashedItem) :
    Fs × Except String Unit :=
  if item.is_root then
    (fs, .error "Cannot restore permanently deleted root files")
  else
    match fs.createDirAll item.original_path.dropLast with
    | .error e => (fs, .error e)
    | .ok fs1 =>
      match fs1.rename item.trash_file_path item.original_path with
      | .error e => (fs1, .error e)
      | .ok fs2 => (fs2.eraseFile item.trash_info_path, .ok ())

/-- Models perm_delete_trash_item (src/system.rs): a no-op success for
is_root items, otherwise best-effort removal of the staged content
(recursive for a directory) and of the metadata sidecar, always
returning success. -/
def perm_delete_trash_item (fs : Fs) (item : TrashedItem) :
    Fs × Except String Unit :=
  if item.is_root then
    (fs, .ok ())
  else
    ((if fs.isDir item.trash_file_path then fs.eraseTree item.trash_file_path
      else fs.eraseFile item.trash_file_path).eraseFile item.trash_info_path, .ok ())

/-- One aggregation result row (struct DirEntry in src/scanner.rs). -/
structure DirEntry where
  path : FsPath
  name : String
  size : Nat
  is_dir : Bool
deriving DecidableEq

/-- Size in bytes of a node as metadata.len() reports it for a regular file. -/
def fileSizeOf : Node → Nat
  | .file d => d.length
  | _ => 0

/-- Whether metadata.is_file() holds for the node. -/
def isFileNode : Node → Bool
  | .file _ => true
  | _ => false

/-- Whether the walk from the root can reach this path: every directory on
the chain from the root (inclusive) to the path (exclusive) is a readable
directory.  jwalk silently skips subtrees it cannot descend into and does
not follow non-directories. -/
def readableChainOk (fs : Fs) (root q : FsPath) : Bool :=
  (List.range' root.length (q.length - root.length)).all (fun k =>
    match fs.get (q.take k) with
    | some (.dir true) => true
    | _ => false)

/-- Whether the walk of scan_directory visits this entry as a regular file. -/
def visitedFile (fs : Fs) (root q : FsPath) (n : Node) : Bool :=
  isFileNode n && root.isPrefixOf q && readableChainOk fs root q

/-- The path a visited file is attributed to: the direct child of the root on
the way to the file, or the file itself when it sits directly in the root
(the components().next() == None branch of scan_directory). -/
def bucketKey (root q : FsPath) : FsPath :=
  match q.drop root.length with
  | [] => q
  | c :: _ => root ++ [c]

/-- Accumulate one file size into the per-child mapping.  The HashMap of
scan_directory is modelled as an association list in first-insertion order; a
deterministic stand-in for the unspecified HashMap iteration order. -/
def addToBucket : List (FsPath × Nat) → FsPath → Nat → List (FsPath × Nat)
  | [], key, sz => [(key, sz)]
  | (k, s) :: rest, key, sz =>
    if k = key then (k, s + sz) :: rest else (k, s) :: addToBucket rest key sz

/-- The walk-and-accumulate phase of scan_directory: every visited regular
file contributes its size to the bucket of its direct child of the root. -/
def scanBuckets (fs : Fs) (root : FsPath) : List (FsPath × Nat) :=
  fs.entries.foldl (fun acc e =>
    if visitedFile fs root e.1 e.2 then
      addToBucket acc (bucketKey root e.1) (fileSizeOf e.2)
    else acc) []

/-- Stable insertion step of the descending-by-size sort: insert before the
first element whose size is not larger. -/
def insertBySize (a : DirEntry) : List DirEntry → List DirEntry
  | [] => [a]
  | b :: bs => if b.size ≤ a.size then a :: b :: bs else b :: insertBySize a bs

/-- Stable sort by size descending, modelling the stable
sort_by(b.size.cmp(a.size)) of scan_directory: elements of equal size keep
their accumulation order. -/
def sortBySize : List DirEntry → List DirEntry
  | [] => []
  | a :: rest => insertBySize a (sortBySize rest)

/-- The row-building phase of scan_directory: one DirEntry per accumulated
bucket, with a fresh is_dir check at emission time. -/
def scanRows (fs : Fs) (path : FsPath) : List DirEntry :=
  (scanBuckets fs path).map (fun b =>
    { path := b.1, name := (b.1.getLast?).getD "", size := b.2,
      is_dir := fs.isDir b.1 : DirEntry })

/-- Models scan_directory (src/scanner.rs).  A missing root yields the empty
result.  Paths are already canonical in this model, so the canonicalize step
(which falls back to the unmodified path on failure) is the identity.  After
the walk, one row per bucket is emitted with a fresh is_dir check, the rows
are sorted by size descending and truncated to the first 50. -/
def scan_directory (fs : Fs) (path : FsPath) : List DirEntry :=
  if !(fs.pathExists path) then []
  else (sortBySize (scanRows fs path)).take 50

/-- Total bytes of all regular files at or below the root that are not
beneath an unreadable directory: the reference quantity of the aggregation
spec sentence. -/
def totalVisitedSize (fs : Fs) (root : FsPath) : Nat :=
  (fs.entries.map (fun e =>
    if visitedFile fs root e.1 e.2 then fileSizeOf e.2 else 0)).sum

/-- Strict lexicographic comparison of character lists by code point. -/
def charListLt : List Char → List Char → Bool
  | [], [] => false
  | [], _ :: _ => true
  | _ :: _, [] => false
  | c :: cs, d :: ds => if c = d then charListLt cs ds else decide (c.toNat < d.toNat)

/-- Lexicographic order on component lists: the natural path ordering the
spec refers to for tie-breaking. -/
def pathLexLe : FsPath → FsPath → Bool
  | [], _ => true
  | _ :: _, [] => false
  | a :: as, b :: bs => if a = b then pathLexLe as bs else charListLt a.data b.data

/-- The dashboard tabs (enum ActiveTab in src/main.rs). -/
inductive ActiveTab
  | System
  | Developer
  | Apps
  | DeepScanner
  | SessionTrash
deriving DecidableEq

/-- The application state (struct App in src/main.rs), restricted to the
fields the scanner, trash and selection workflow touch.  The package-cache,
journal and developer-tool cleaning fields are external shell-out targets the
spec places out of scope and are omitted. -/
structure App where
  active_tab : ActiveTab
  should_quit : Bool
  system_index : Nat
  dev_index : Nat
  apps_index : Nat
  scanner_index : Nat
  current_scan_path : FsPath
  scan_results : List DirEntry
  selected_paths : List FsPath
  trashed_items : List TrashedItem
  session_trash_index : Nat
  show_root_warning : Bool
  fs : Fs
deriving DecidableEq

/-- App::new, given the ambient filesystem: scan the home directory and start
on the System tab with empty selection and session trash. -/
def App.init (env : Env) (fs0 : Fs) : App :=
  { active_tab := .System
    should_quit := false
    system_index := 0
    dev_index := 0
    apps_index := 0
    scanner_index := 0
    current_scan_path := env.home
    scan_results := scan_directory fs0 env.home
    selected_paths := []
    trashed_items := []
    session_trash_index := 0
    show_root_warning := false
    fs := fs0 }

/-- App::next_tab. -/
def next_tab (s : App) : App :=
  { s with active_tab :=
      match s.active_tab with
      | .System => .Developer
      | .Developer => .Apps
      | .Apps => .DeepScanner
      | .DeepScanner => .SessionTrash
      | .SessionTrash => .System }

/-- App::prev_tab. -/
def prev_tab (s : App) : App :=
  { s with active_tab :=
      match s.active_tab with
      | .System => .SessionTrash
      | .Developer => .System
      | .Apps => .Developer
      | .DeepScanner => .Apps
      | .SessionTrash => .DeepScanner }

/-- App::next_item: advance the cursor of the active tab, wrapping; on the
scanner and session-trash tabs only when the list is nonempty. -/
def next_item (s : App) : App :=
  match s.active_tab with
  | .System => { s with system_index := (s.system_index + 1) % 5 }
  | .Developer => { s with dev_index := (s.dev_index + 1) % 3 }
  | .Apps => { s with apps_index := (s.apps_index + 1) % 2 }
  | .DeepScanner =>
    if s.scan_results.isEmpty then s
    else { s with scanner_index := (s.scanner_index + 1) % s.scan_results.length }
  | .SessionTrash =>
    if s.trashed_items.isEmpty then s
    else { s with session_trash_index :=
            (s.session_trash_index + 1) % s.trashed_items.length }

/-- App::prev_item: move the cursor back, wrapping to the end. -/
def prev_item (s : App) : App :=
  match s.active_tab with
  | .System =>
    if s.system_index > 0 then { s with system_index := s.system_index - 1 }
    else { s with system_index := 4 }
  | .Developer =>
    if s.dev_index > 0 then { s with dev_index := s.dev_index - 1 }
    else { s with dev_index := 2 }
  | .Apps =>
    if s.apps_index > 0 then { s with apps_index := s.apps_index - 1 }
    else { s with apps_index := 1 }
  | .DeepScanner =>
    if s.scan_results.isEmpty then s
    else if s.scanner_index > 0 then { s with scanner_index := s.scanner_index - 1 }
    else { s with scanner_index := s.scan_results.length - 1 }
  | .SessionTrash =>
    if s.trashed_items.isEmpty then s
    else if s.session_trash_index > 0 then
      { s with session_trash_index := s.session_trash_index - 1 }
    else { s with session_trash_index := s.trashed_items.length - 1 }

/-- App::toggle_selection on the deep-scanner tab: toggle membership of the
highlighted path in the selection set.  The HashSet is modelled as a list of
distinct paths.  The System and Developer branches toggle out-of-scope
cleaning flags and are identities on the modelled fields.  Direct indexing of
scan_results is modelled with a checked lookup whose failing branch (a Rust
panic) is the identity; the cursor invariant shows it is never taken. -/
def toggle_selection (s : App) : App :=
  match s.active_tab with
  | .DeepScanner =>
    if s.scan_results.isEmpty then s
    else
      match s.scan_results[s.scanner_index]? with
      | none => s
      | some entry =>
        if s.selected_paths.contains entry.path then
          { s with selected_paths :=
              s.selected_paths.filter (fun q => !(decide (q = entry.path))) }
        else
          { s with selected_paths := entry.path :: s.selected_paths }
  | _ => s

/-- App::drill_down: when the highlighted entry is a directory, make it the
browse root, rescan and reset the cursor. -/
def drill_down (s : App) : App :=
  if s.scan_results.isEmpty then s
  else
    match s.scan_results[s.scanner_index]? with
    | none => s
    | some sel =>
      if sel.is_dir then
        { s with current_scan_path := sel.path
                 scan_results := scan_directory s.fs sel.path
                 scanner_index := 0 }
      else s

/-- App::drill_up: move the browse root to its parent (no-op at the
filesystem root, where FsPath::parent is None), rescan, reset the cursor. -/
def drill_up (s : App) : App :=
  if s.current_scan_path = [] then s
  else
    { s with current_scan_path := s.current_scan_path.dropLast
             scan_results := scan_directory s.fs s.current_scan_path.dropLast
             scanner_index := 0 }

/-- The drain-and-trash loop of execute_deep_scanner_trash: each selected
path is handed to move_to_trash in turn; each success appends its TrashedItem
and failures are skipped. -/
def trashPaths (env : Env) : Fs → List FsPath → Fs × List TrashedItem
  | fs, [] => (fs, [])
  | fs, p :: rest =>
    match move_to_trash env fs p with
    | (fs1, .ok item) =>
      let r := trashPaths env fs1 rest
      (r.1, item :: r.2)
    | (fs1, .error _) => trashPaths env fs1 rest

/-- App::execute_deep_scanner_trash: nothing happens on an empty selection;
if some selected path lies outside home and the warning gate is idle, only
the gate flips to awaiting-confirmation; otherwise every selected path is
trashed, the selection is cleared, the gate returns to idle and the current
root is rescanned. -/
def execute_deep_scanner_trash (env : Env) (s : App) : App :=
  if s.selected_paths.isEmpty then s
  else
    if (s.selected_paths.any (fun p => !(env.home.isPrefixOf p))) && !s.show_root_warning then
      { s with show_root_warning := true }
    else
      let r := trashPaths env s.fs s.selected_paths
      { s with fs := r.1
               trashed_items := s.trashed_items ++ r.2
               selected_paths := []
               show_root_warning := false
               scan_results := scan_directory r.1 s.current_scan_path
               scanner_index := 0 }

/-- App::execute_session_trash_delete: remove the highlighted record from the
session trash list, permanently delete its staged content (the result is
discarded), and pull the cursor back when it fell off the end.  The failing
branch of the checked lookup models the Vec::remove panic and is never taken
on reachable states. -/
def execute_session_trash_delete (s : App) : App :=
  if s.trashed_items.isEmpty then s
  else
    match s.trashed_items[s.session_trash_index]? with
    | none => s
    | some item =>
      let fs1 := (perm_delete_trash_item s.fs item).1
      let items1 := s.trashed_items.eraseIdx s.session_trash_index
      let idx :=
        if s.session_trash_index ≥ items1.length ∧ s.session_trash_index > 0 then
          s.session_trash_index - 1
        else s.session_trash_index
      { s with fs := fs1, trashed_items := items1, session_trash_index := idx }

/-- App::execute_undo_trash: only on the session-trash tab with a nonempty
list; the highlighted record is removed from the list first and the restore
result is discarded. -/
def execute_undo_trash (s : App) : App :=
  if !(decide (s.active_tab = .SessionTrash)) || s.trashed_items.isEmpty then s
  else
    match s.trashed_items[s.session_trash_index]? with
    | none => s
    | some item =>
      let fs1 := (restore_trash_item s.fs item).1
      let items1 := s.trashed_items.eraseIdx s.session_trash_index
      let idx :=
        if s.session_trash_index ≥ items1.length ∧ s.session_trash_index > 0 then
          s.session_trash_index - 1
        else s.session_trash_index
      { s with fs := fs1, trashed_items := items1, session_trash_index := idx }

/-- App::execute_clean restricted to the modelled core: the deep scanner and
session trash branches; the remaining branches shell out to external cleaners
the spec puts out of scope and leave every modelled field unchanged. -/
def execute_clean (env : Env) (s : App) : App :=
  match s.active_tab with
  | .DeepScanner => execute_deep_scanner_trash env s
  | .SessionTrash => execute_session_trash_delete s
  | _ => s

/-- The Right and l keys of the main loop: drill down on the scanner tab,
otherwise switch tab. -/
def on_key_right (s : App) : App :=
  if s.active_tab = .DeepScanner then drill_down s else next_tab s

/-- The Left and h keys of the main loop: drill up on the scanner tab,
otherwise switch tab. -/
def on_key_left (s : App) : App :=
  if s.active_tab = .DeepScanner then drill_up s else prev_tab s

/-- The Esc key of the main loop: cancel the confirmation warning if shown,
otherwise quit. -/
def on_key_esc (s : App) : App :=
  if s.show_root_warning then { s with show_root_warning := false }
  else { s with should_quit := true }

/-- The application states reachable from App::new through the key events the
main loop dispatches. -/
inductive Reachable (env : Env) : App → Prop
  | init (fs0 : Fs) : Reachable env (App.init env fs0)
  | key_down {s} : Reachable env s → Reachable env (next_item s)
  | key_up {s} : Reachable env s → Reachable env (prev_item s)
  | key_right {s} : Reachable env s → Reachable env (on_key_right s)
  | key_left {s} : Reachable env s → Reachable env (on_key_left s)
  | key_tab {s} : Reachable env s → Reachable env (next_tab s)
  | key_backtab {s} : Reachable env s → Reachable env (prev_tab s)
  | key_space {s} : Reachable env s → Reachable env (toggle_selection s)
  | key_enter {s} : Reachable env s → Reachable env (execute_clean env s)
  | key_u {s} : Reachable env s → Reachable env (execute_undo_trash s)
  | key_esc {s} : Reachable env s → Reachable env (on_key_esc s)
  | key_q {s} : Reachable env s → Reachable env { s with should_quit := true }

/-- A small concrete environment for witnesses: home at /home/u, the local
data directory at /home/u/.local/share. -/
def wEnv : Env :=
  { home := ["home", "u"]
    dataLocal := ["home", "u", ".local", "share"]
    now := "2026-10-12T00:00:00" }

/-- A small well-formed filesystem with one regular file under home. -/
def c1fs : Fs :=
  ⟨[(["home"], .dir true),
    (["home", "u"], .dir true),
    (["home", "u", "a.txt"], .file "hello")]⟩

/-- A deep-scanner state about to commit a selection that contains the
out-of-home path /etc/foo while the gate is idle. -/
def c2s : App :=
  { active_tab := .DeepScanner
    should_quit := false
    system_index := 0
    dev_index := 0
    apps_index := 0
    scanner_index := 0
    current_scan_path := ["home", "u"]
    scan_results := []
    selected_paths := [["etc", "foo"]]
    trashed_items := []
    session_trash_index := 0
    show_root_warning := false
    fs := ⟨[(["etc"], .dir true), (["etc", "foo"], .file "zz")]⟩ }

/-- Root directory with 51 one-byte regular files directly inside it: more
direct children than the 50-entry cap of scan_directory. -/
def c4fs : Fs :=
  ⟨(["r"], Node.dir true) ::
    (List.range 51).map (fun i => (["r", "f" ++ Nat.repr i], Node.file "x"))⟩

/-- Two equal-sized children encountered in the order b then a: a tie the
claimed natural path ordering would have to emit as a then b. -/
def c5fs : Fs :=
  ⟨[(["r"], .dir true),
    (["r", "b"], .file "x"),
    (["r", "a"], .file "y")]⟩

/-- Filesystem for the collision counterexample: two distinct regular files
both named a, one of which will be staged and then itself trashed from
inside the staging area. -/
def c6fs : Fs :=
  ⟨[(["home"], .dir true),
    (["home", "u"], .dir true),
    (["home", "u", "x"], .dir true),
    (["home", "u", "x", "a"], .file "first"),
    (["home", "u", "y"], .dir true),
    (["home", "u", "y", "a"], .file "second")]⟩

/-- First put: trash /home/u/x/a; it is staged as files/a. -/
def c6put1 : Fs × Except String TrashedItem :=
  move_to_trash wEnv c6fs ["home", "u", "x", "a"]

/-- Second put: trash the staged file files/a itself (reachable by browsing
into the staging area with the deep scanner); it restages as files/a_1. -/
def c6put2 : Fs × Except String TrashedItem :=
  move_to_trash wEnv c6put1.1 ["home", "u", ".local", "share", "Trash", "files", "a"]

/-- Third put: trash the first record's metadata sidecar info/a.trashinfo
itself; after this nothing in the staging area reserves the name a. -/
def c6put3 : Fs × Except String TrashedItem :=
  move_to_trash wEnv c6put2.1 ["home", "u", ".local", "share", "Trash", "info", "a.trashinfo"]

/-- Fourth put: trash /home/u/y/a; the name a is free again, so it is staged
as files/a, colliding with the still-pending first record. -/
def c6put4 : Fs × Except String TrashedItem :=
  move_to_trash wEnv c6put3.1 ["home", "u", "y", "a"]

/-- Staging area already holding report.txt (and its sidecar), plus a fresh
/home/u/docs/report.txt to trash: the suffix scenario of the spec. -/
def c6sfs : Fs :=
  ⟨[(["home"], .dir true),
    (["home", "u"], .dir true),
    (["home", "u", ".local"], .dir true),
    (["home", "u", ".local", "share"], .dir true),
    (["home", "u", ".local", "share", "Trash"], .dir true),
    (["home", "u", ".local", "share", "Trash", "files"], .dir true),
    (["home", "u", ".local", "share", "Trash", "info"], .dir true),
    (["home", "u", ".local", "share", "Trash", "files", "report.txt"], .file "old"),
    (["home", "u", ".local", "share", "Trash", "info", "report.txt.trashinfo"], .file "meta"),
    (["home", "u", "docs"], .dir true),
    (["home", "u", "docs", "report.txt"], .file "new")]⟩

/-- The reachable state for the session-trash lifecycle counterexample,
built by replaying key events from App::new: drill up to the filesystem
root, select the out-of-home directory /etc, commit twice through the
confirmation gate, and move to the session-trash tab.  Its trash list holds
one is_root record. -/
def c8s : App :=
  next_tab (execute_clean wEnv (execute_clean wEnv (toggle_selection
    (on_key_left (on_key_left (next_tab (next_tab (next_tab (App.init wEnv
      ⟨[([], .dir true),
        (["home"], .dir true),
        (["home", "u"], .dir true),
        (["etc"], .dir true),
        (["etc", "foo"], .file "z")]⟩)))))))))

/-- A deep-scanner state about to commit a purely in-home selection while
the warning gate is idle: the ordinary reversible-deletion commit, which
executes immediately without a confirmation round-trip. -/
def c8si : App :=
  { active_tab := .DeepScanner
    should_quit := false
    system_index := 0
    dev_index := 0
    apps_index := 0
    scanner_index := 0
    current_scan_path := ["home", "u"]
    scan_results := []
    selected_paths := [["home", "u", "a.txt"]]
    trashed_items := []
    session_trash_index := 0
    show_root_warning := false
    fs := c1fs }

theorem lookupEntries_nil (p : FsPath) : lookupEntries [] p = none := rfl

theorem lookupEntries_cons (q : FsPath) (n : Node) (t : List (FsPath × Node)) (p : FsPath) :
    lookupEntries ((q, n) :: t) p = if q = p then some n else lookupEntries t p := rfl

theorem lookupEntries_none_iff (l : List (FsPath × Node)) (p : FsPath) :
    lookupEntries l p = none ↔ ∀ e ∈ l, e.1 ≠ p := by
  induction l with
  | nil => simp [lookupEntries_nil]
  | cons a t ih =>
    obtain ⟨q, n⟩ := a
    rw [lookupEntries_cons]
    by_cases h : q = p
    · subst h
      rw [if_pos rfl]
      constructor
      · intro hc
        exact absurd hc (by simp)
      · intro hall
        exact absurd rfl (hall (q, n) (List.mem_cons_self _ _))
    · rw [if_neg h, ih]
      simp only [List.mem_cons]
      constructor
      · rintro hall e (rfl | he)
        · exact h
        · exact hall e he
      · intro hall e he
        exact hall e (Or.inr he)

theorem lookupEntries_mem_of_some (l : List (FsPath × Node)) (p : FsPath) (n : Node)
    (h : lookupEntries l p = some n) : (p, n) ∈ l := by
  induction l with
  | nil => simp [lookupEntries_nil] at h
  | cons a t ih =>
    obtain ⟨q, m⟩ := a
    rw [lookupEntries_cons] at h
    by_cases hq : q = p
    · subst hq
      rw [if_pos rfl] at h
      injection h with h
      subst h
      exact List.mem_cons_self _ _
    · rw [if_neg hq] at h
      exact List.mem_cons_of_mem _ (ih h)

theorem get_eraseFile (fs : Fs) (p q : FsPath) :
    (fs.eraseFile p).get q = if q = p then none else fs.get q := by
  obtain ⟨l⟩ := fs
  simp only [Fs.eraseFile, Fs.get]
  induction l with
  | nil => simp [lookupEntries_nil]
  | cons a t ih =>
    obtain ⟨r, n⟩ := a
    by_cases hr : r = p
    · subst hr
      rw [List.filter_cons_of_neg (by simp), ih, lookupEntries_cons]
      by_cases hq : q = r
      · subst hq
        simp
      · rw [if_neg hq, if_neg hq, if_neg (fun h => hq h.symm)]
    · rw [List.filter_cons_of_pos (by simp [hr]), lookupEntries_cons, lookupEntries_cons, ih]
      by_cases hq : r = q
      · subst hq
        rw [if_pos rfl, if_pos rfl, if_neg hr]
      · rw [if_neg hq, if_neg hq]

theorem get_eraseTree (fs : Fs) (p q : FsPath) :
    (fs.eraseTree p).get q = if p <+: q then none else fs.get q := by
  obtain ⟨l⟩ := fs
  simp only [Fs.eraseTree, Fs.get]
  induction l with
  | nil => simp [lookupEntries_nil]
  | cons a t ih =>
    obtain ⟨r, n⟩ := a
    by_cases hr : p <+: r
    · have hb : List.isPrefixOf p r = true := List.isPrefixOf_iff_prefix.mpr hr
      rw [List.filter_cons_of_neg (by simp [hb]), ih]
      by_cases hpq : p <+: q
      · rw [if_pos hpq, if_pos hpq]
      · have hrq : ¬ r = q := fun h => hpq (h ▸ hr)
        rw [if_neg hpq, if_neg hpq, lookupEntries_cons, if_neg hrq]
    · have hb : List.isPrefixOf p r = false := by
        rw [Bool.eq_false_iff]
        intro hc
        exact hr (List.isPrefixOf_iff_prefix.mp hc)
      rw [List.filter_cons_of_pos (by simp [hb]), lookupEntries_cons, lookupEntries_cons, ih]
      by_cases hq : r = q
      · subst hq
        rw [if_pos rfl, if_pos rfl, if_neg hr]
      · rw [if_neg hq, if_neg hq]

theorem get_insertNode (fs : Fs) (p : FsPath) (n : Node) (q : FsPath) :
    (fs.insertNode p n).get q = if q = p then some n else fs.get q := by
  by_cases hq : q = p
  · subst hq
    simp [Fs.insertNode, Fs.get, lookupEntries_cons]
  · have h1 : (fs.eraseFile p).get q = fs.get q := by
      rw [get_eraseFile, if_neg hq]
    simp only [Fs.insertNode, Fs.get] at *
    rw [lookupEntries_cons, if_neg (fun h => hq h.symm), if_neg hq]
    exact h1

theorem get_writeFile (fs : Fs) (p : FsPath) (d : String) (q : FsPath) :
    (fs.writeFile p d).get q = if q = p then some (.file d) else fs.get q := by
  simp [Fs.writeFile, get_insertNode]

theorem lookupEntries_map_none (l : List (FsPath × Node)) (f : FsPath × Node → FsPath × Node)
    (q : FsPath) (hk : ∀ e ∈ l, (f e).1 ≠ q) : lookupEntries (l.map f) q = none := by
  rw [lookupEntries_none_iff]
  intro e he
  obtain ⟨a, ha, rfl⟩ := List.mem_map.mp he
  exact hk a ha

theorem rename_ok_facts (fs : Fs) (src dst : FsPath) (fs2 : Fs)
    (h : fs.rename src dst = .ok fs2) :
    (fs.get src).isSome = true ∧ ¬ src <+: dst ∧ fs.get dst = none ∧
    fs2.entries = fs.entries.map (fun e =>
      if src.isPrefixOf e.1 then (dst ++ e.1.drop src.length, e.2) else e) := by
  unfold Fs.rename at h
  by_cases h1 : (fs.get src).isNone = true
  · rw [if_pos h1] at h
    exact absurd h (by simp)
  rw [if_neg h1] at h
  by_cases h2 : src.isPrefixOf dst = true
  · rw [if_pos h2] at h
    exact absurd h (by simp)
  rw [if_neg h2] at h
  by_cases h3 : (fs.get dst).isSome = true
  · rw [if_pos h3] at h
    exact absurd h (by simp)
  rw [if_neg h3] at h
  by_cases h4 : (!(decide (dst.dropLast = []) || fs.isDir dst.dropLast)) = true
  · rw [if_pos h4] at h
    exact absurd h (by simp)
  rw [if_neg h4] at h
  injection h with h
  refine ⟨?_, ?_, ?_, ?_⟩
  · rcases hg : fs.get src with _ | v
    · rw [hg] at h1
      exact absurd rfl h1
    · rfl
  · intro hc
    exact h2 (List.isPrefixOf_iff_prefix.mpr hc)
  · rcases hg : fs.get dst with _ | v
    · rfl
    · rw [hg] at h3
      exact absurd rfl h3
  · rw [← h]

theorem lookup_ren_absent (l : List (FsPath × Node)) (src dst q : FsPath)
    (hdst : ¬ dst <+: q) (h : lookupEntries l q = none) :
    lookupEntries (l.map (fun e =>
      if src.isPrefixOf e.1 then (dst ++ e.1.drop src.length, e.2) else e)) q = none := by
  rw [lookupEntries_none_iff] at h
  refine lookupEntries_map_none _ _ _ ?_
  intro e he
  by_cases hp : src.isPrefixOf e.1
  · simp only [hp, if_pos]
    intro hc
    exact hdst (hc ▸ List.prefix_append dst _)
  · simp only [hp]
    rw [if_neg (by simp [hp])]
    exact h e he

theorem lookup_ren_outside (l : List (FsPath × Node)) (src dst q : FsPath)
    (hsrc : ¬ src <+: q) (hdst : ¬ dst <+: q) :
    lookupEntries (l.map (fun e =>
      if src.isPrefixOf e.1 then (dst ++ e.1.drop src.length, e.2) else e)) q =
    lookupEntries l q := by
  induction l with
  | nil => simp [lookupEntries_nil]
  | cons a t ih =>
    obtain ⟨r, n⟩ := a
    by_cases hp : src.isPrefixOf r
    · have hkey : dst ++ r.drop src.length ≠ q := by
        intro hc
        exact hdst (hc ▸ List.prefix_append dst _)
      rw [List.map_cons]
      simp only [hp, if_pos]
      rw [lookupEntries_cons, if_neg hkey, lookupEntries_cons, ih]
      have hrq : ¬ r = q := by
        intro hc
        exact hsrc (hc ▸ List.isPrefixOf_iff_prefix.mp hp)
      rw [if_neg hrq]
    · rw [List.map_cons]
      simp only [hp]
      rw [if_neg (by simp [hp]), lookupEntries_cons, lookupEntries_cons, ih]

theorem lookup_ren_srcside (l : List (FsPath × Node)) (src dst q : FsPath)
    (hsq : src <+: q) (hnsd : ¬ src <+: dst)
    (hfresh : ∀ r, dst <+: r → lookupEntries l r = none)
    (hex : lookupEntries l src ≠ none) :
    lookupEntries (l.map (fun e =>
      if src.isPrefixOf e.1 then (dst ++ e.1.drop src.length, e.2) else e)) q = none := by
  refine lookupEntries_map_none _ _ _ ?_
  intro e he
  by_cases hp : src.isPrefixOf e.1
  · simp only [hp, if_pos]
    intro hc
    have hdq : dst <+: q := hc ▸ List.prefix_append dst _
    rcases List.prefix_or_prefix_of_prefix hsq hdq with hsd | hds
    · exact hnsd hsd
    · exact hex (hfresh src hds)
  · simp only [hp]
    rw [if_neg (by simp [hp])]
    intro hc
    exact hp (List.isPrefixOf_iff_prefix.mpr (hc ▸ hsq))

theorem lookup_ren_dstside (l : List (FsPath × Node)) (src dst q : FsPath)
    (hdq : dst <+: q) (hnsd : ¬ src <+: dst)
    (hfresh : ∀ r, dst <+: r → lookupEntries l r = none) :
    lookupEntries (l.map (fun e =>
      if src.isPrefixOf e.1 then (dst ++ e.1.drop src.length, e.2) else e)) q =
    lookupEntries l (src ++ q.drop dst.length) := by
  induction l with
  | nil => simp [lookupEntries_nil]
  | cons a t ih =>
    have hfresh1 : ∀ r, dst <+: r → lookupEntries t r = none := by
      intro r hr
      have := hfresh r hr
      rw [lookupEntries_none_iff] at this
      rw [lookupEntries_none_iff]
      intro e he
      exact this e (List.mem_cons_of_mem _ he)
    obtain ⟨r, n⟩ := a
    by_cases hp : src.isPrefixOf r
    · have hsr : src <+: r := List.isPrefixOf_iff_prefix.mp hp
      rw [List.map_cons]
      simp only [hp, if_pos]
      rw [lookupEntries_cons, lookupEntries_cons]
      by_cases hkey : dst ++ r.drop src.length = q
      · have hr : r = src ++ q.drop dst.length := by
          obtain ⟨t1, rfl⟩ := hsr
          obtain ⟨t2, ht2⟩ := hdq
          have : t1 = q.drop dst.length := by
            rw [← hkey, List.drop_left]
            congr 1
            rw [List.drop_left]
          rw [this]
        rw [if_pos hkey, if_pos hr]
      · have hr : ¬ r = src ++ q.drop dst.length := by
          intro hc
          apply hkey
          obtain ⟨t2, rfl⟩ := hdq
          rw [hc, List.drop_left, List.drop_left]
        rw [if_neg hkey, if_neg hr, ih hfresh1]
    · rw [List.map_cons]
      simp only [hp]
      rw [if_neg (by simp [hp]), lookupEntries_cons, lookupEntries_cons]
      have h1 : ¬ r = q := by
        intro hc
        subst hc
        have := hfresh r hdq
        rw [lookupEntries_cons, if_pos rfl] at this
        exact Option.some_ne_none _ this
      have h2 : ¬ r = src ++ q.drop dst.length := by
        intro hc
        exact hp (List.isPrefixOf_iff_prefix.mpr (hc ▸ List.prefix_append src _))
      rw [if_neg h1, if_neg h2, ih hfresh1]

theorem createDirAllAux_get (cs : List String) (fs : Fs) (pre : FsPath) (fs2 : Fs)
    (h : createDirAllAux fs pre cs = .ok fs2) (q : FsPath) :
    fs2.get q = fs.get q ∨
      (fs.get q = none ∧ fs2.get q = some (.dir true) ∧
        ∃ k, 0 < k ∧ k ≤ cs.length ∧ q = pre ++ cs.take k) := by
  induction cs generalizing fs pre with
  | nil =>
    unfold createDirAllAux at h
    injection h with h
    subst h
    exact Or.inl rfl
  | cons c rest ih =>
    unfold createDirAllAux at h
    rcases hg : fs.get (pre ++ [c]) with _ | node
    · rw [hg] at h
      rcases ih (fs.insertNode (pre ++ [c]) (.dir true)) (pre ++ [c]) h with h1 | h1
      · rw [h1, get_insertNode]
        by_cases hq : q = pre ++ [c]
        · subst hq
          refine Or.inr ⟨hg, by rw [if_pos rfl], 1, Nat.one_pos, by simp, by simp⟩
        · rw [if_neg hq]
          exact Or.inl rfl
      · obtain ⟨ha, hb, k, hk0, hkl, hkq⟩ := h1
        rw [get_insertNode] at ha
        by_cases hq : q = pre ++ [c]
        · rw [if_pos hq] at ha
          exact absurd ha (by simp)
        · rw [if_neg hq] at ha
          refine Or.inr ⟨ha, hb, k + 1, Nat.succ_pos _, by simpa using hkl, ?_⟩
          rw [hkq, List.take_succ_cons, List.append_assoc]
          rfl
    · rw [hg] at h
      rcases node with d | b | _
      · exact absurd h (by simp)
      · rcases ih fs (pre ++ [c]) h with h1 | h1
        · exact Or.inl h1
        · obtain ⟨ha, hb, k, hk0, hkl, hkq⟩ := h1
          refine Or.inr ⟨ha, hb, k + 1, Nat.succ_pos _, by simpa using hkl, ?_⟩
          rw [hkq, List.take_succ_cons, List.append_assoc]
          rfl
      · exact absurd h (by simp)

theorem createDirAll_get_untouched (fs : Fs) (p : FsPath) (fs2 : Fs)
    (h : fs.createDirAll p = .ok fs2) (q : FsPath) (hq : ¬ q <+: p) :
    fs2.get q = fs.get q := by
  rcases createDirAllAux_get p fs [] fs2 h q with h1 | h1
  · exact h1
  · obtain ⟨_, _, k, _, _, hkq⟩ := h1
    rw [List.nil_append] at hkq
    exact absurd (hkq ▸ List.take_prefix k p) hq

theorem createDirAll_get_some (fs : Fs) (p : FsPath) (fs2 : Fs)
    (h : fs.createDirAll p = .ok fs2) (q : FsPath) (n : Node)
    (hq : fs.get q = some n) : fs2.get q = some n := by
  rcases createDirAllAux_get p fs [] fs2 h q with h1 | h1
  · rw [h1, hq]
  · obtain ⟨ha, _, _⟩ := h1
    rw [hq] at ha
    exact absurd ha (by simp)

theorem createDirAll_get_none (fs : Fs) (p : FsPath) (fs2 : Fs)
    (h : fs.createDirAll p = .ok fs2) (q : FsPath)
    (h2 : fs2.get q = none) : fs.get q = none := by
  rcases hg : fs.get q with _ | n
  · rfl
  · rw [createDirAll_get_some fs p fs2 h q n hg] at h2
    exact absurd h2 (by simp)

theorem createDirAllAux_all_present (cs : List String) (fs : Fs) (pre : FsPath)
    (hall : ∀ k, 0 < k → k ≤ cs.length → ∃ b, fs.get (pre ++ cs.take k) = some (.dir b)) :
    createDirAllAux fs pre cs = .ok fs := by
  induction cs generalizing pre with
  | nil => rfl
  | cons c rest ih =>
    obtain ⟨b, hb⟩ := hall 1 Nat.one_pos (by simp)
    unfold createDirAllAux
    have hb1 : fs.get (pre ++ [c]) = some (.dir b) := by
      simpa using hb
    rw [hb1]
    refine ih (pre ++ [c]) ?_
    intro k hk0 hkl
    obtain ⟨b2, hb2⟩ := hall (k + 1) (Nat.succ_pos _) (by simpa using hkl)
    refine ⟨b2, ?_⟩
    rw [List.append_assoc]
    simpa [List.take_succ_cons] using hb2

theorem createDirAll_all_present (fs : Fs) (p : FsPath)
    (hall : ∀ k, 0 < k → k ≤ p.length → ∃ b, fs.get (p.take k) = some (.dir b)) :
    fs.createDirAll p = .ok fs := by
  refine createDirAllAux_all_present p fs [] ?_
  intro k hk0 hkl
  simpa using hall k hk0 hkl

theorem findSafeName_free (fs : Fs) (fdir idir : FsPath) (fileName : String)
    (cand : String) (counter fuel : Nat) (safe : String)
    (h : findSafeName fs fdir idir fileName cand counter fuel = some safe) :
    trashNameFree fs fdir idir safe = true := by
  induction fuel generalizing cand counter with
  | zero =>
    unfold findSafeName at h
    by_cases hf : trashNameFree fs fdir idir cand = true
    · rw [if_pos hf] at h
      injection h with h
      exact h ▸ hf
    · rw [if_neg hf] at h
      exact absurd h (by simp)
  | succ fuel ih =>
    unfold findSafeName at h
    by_cases hf : trashNameFree fs fdir idir cand = true
    · rw [if_pos hf] at h
      injection h with h
      exact h ▸ hf
    · rw [if_neg hf] at h
      exact ih _ _ h

theorem trashNameFree_get (fs : Fs) (fdir idir : FsPath) (cand : String)
    (h : trashNameFree fs fdir idir cand = true) :
    fs.get (fdir ++ [cand]) = none ∧ fs.get (idir ++ [cand ++ ".trashinfo"]) = none := by
  unfold trashNameFree Fs.pathExists at h
  rw [Bool.not_eq_true', Bool.or_eq_false_iff] at h
  obtain ⟨h1, h2⟩ := h
  constructor
  · rcases hg : fs.get (fdir ++ [cand]) with _ | v
    · rfl
    · rw [hg] at h1
      exact absurd h1 (by simp)
  · rcases hg : fs.get (idir ++ [cand ++ ".trashinfo"]) with _ | v
    · rfl
    · rw [hg] at h2
      exact absurd h2 (by simp)

theorem wf_ancestor (fs : Fs) (hwf : fs.wf = true) (r : FsPath) (n : Node)
    (h : fs.get r = some n) (k : Nat) (hk0 : 0 < k) (hk : k < r.length) :
    ∃ b, fs.get (r.take k) = some (.dir b) := by
  have hmem := lookupEntries_mem_of_some _ _ _ h
  unfold Fs.wf at hwf
  rw [List.all_eq_true] at hwf
  have h1 := hwf _ hmem
  rw [List.all_eq_true] at h1
  have hx := h1 k (List.mem_range.mpr hk)
  rw [Bool.or_eq_true] at hx
  rcases hx with hx | hx
  · rw [decide_eq_true_iff] at hx
    omega
  · rcases hg : fs.get (r.take k) with _ | node
    · rw [hg] at hx
      exact absurd hx (by simp)
    · rcases node with d | b | _
      · rw [hg] at hx
        exact absurd hx (by simp)
      · exact ⟨b, rfl⟩
      · rw [hg] at hx
        exact absurd hx (by simp)

theorem wf_subtree_absent (fs : Fs) (hwf : fs.wf = true) (d : FsPath)
    (hd : fs.get d = none) (hlen : 0 < d.length) (r : FsPath)
    (hdr : d <+: r) (hne : r ≠ d) : fs.get r = none := by
  rcases hg : fs.get r with _ | n
  · rfl
  · have hlt : d.length < r.length := by
      rcases Nat.lt_or_ge d.length r.length with h | h
      · exact h
      · have heq : d.length = r.length :=
          Nat.le_antisymm (List.IsPrefix.length_le hdr) h
        have : d = r := List.IsPrefix.eq_of_length hdr heq
        exact absurd this.symm hne
    obtain ⟨b, hb⟩ := wf_ancestor fs hwf r n hg d.length hlen hlt
    have htake : r.take d.length = d := by
      obtain ⟨t, rfl⟩ := hdr
      simp [List.take_left]
    rw [htake] at hb
    rw [hb] at hd
    exact absurd hd (by simp)

theorem concat_ne_of_ne (l : List String) (a b : String) (hab : a ≠ b) :
    ¬ (l ++ [a] <+: l ++ [b]) := by
  intro h
  rw [List.prefix_append_right_inj] at h
  exact hab (List.cons_prefix_cons.mp h).1

theorem move_root_eq (env : Env) (fs : Fs) (p : FsPath)
    (hroot : env.home.isPrefixOf p = false) :
    move_to_trash env fs p = (fs.eraseTree p, .ok ⟨p, [], [], true⟩) := by
  unfold move_to_trash
  simp [hroot]

theorem move_rev_ok (env : Env) (fs : Fs) (p : FsPath) (fsR : Fs) (item : TrashedItem)
    (hrev : env.home.isPrefixOf p = true)
    (h : move_to_trash env fs p = (fsR, .ok item)) :
    ∃ fs1 fs2 safe,
      fs.createDirAll (filesDir env) = .ok fs1 ∧
      fs1.createDirAll (infoDir env) = .ok fs2 ∧
      findSafeName fs2 (filesDir env) (infoDir env) ((p.getLast?).getD "")
        ((p.getLast?).getD "") 1 (fs2.entries.length + 1) = some safe ∧
      item = ⟨p, filesDir env ++ [safe], infoDir env ++ [safe ++ ".trashinfo"], false⟩ ∧
      (fs2.writeFile (infoDir env ++ [safe ++ ".trashinfo"])
          (infoContent p env.now)).rename p (filesDir env ++ [safe]) = .ok fsR := by
  unfold move_to_trash at h
  simp only [hrev, Bool.not_true, Bool.false_eq_true, if_false] at h
  split at h
  · simp at h
  · rename_i fs1 h1
    split at h
    · simp at h
    · rename_i fs2 h2
      split at h
      · simp at h
      · rename_i safe h3
        split at h
        · simp at h
        · rename_i fs4 h4
          simp only [Prod.mk.injEq, Except.ok.injEq] at h
          obtain ⟨hfs, hitem⟩ := h
          exact ⟨fs1, fs2, safe, h1, h2, h3, hitem.symm, hfs ▸ h4⟩

theorem prefix_antisymm (l1 l2 : List String) (h1 : l1 <+: l2) (h2 : l2 <+: l1) :
    l1 = l2 :=
  List.IsPrefix.eq_of_length h1
    (Nat.le_antisymm (List.IsPrefix.length_le h1) (List.IsPrefix.length_le h2))

/-- C3: restore on a TrashedItem with is_root = true fails immediately with a
fixed error and returns the filesystem unchanged; the outcome depends on no
filesystem state. -/
theorem C3_restore_is_root_fails (fs : Fs) (item : TrashedItem)
    (h : item.is_root = true) :
    restore_trash_item fs item =
      (fs, .error "Cannot restore permanently deleted root files") := by
  unfold restore_trash_item
  rw [h]
  simp

theorem C3_restore_is_root_fails_witness :
    restore_trash_item ⟨[]⟩ ⟨["etc", "foo"], [], [], true⟩ =
      (⟨[]⟩, .error "Cannot restore permanently deleted root files") :=
  C3_restore_is_root_fails ⟨[]⟩ ⟨["etc", "foo"], [], [], true⟩ rfl

/-- C9: perm_delete_trash_item returns success for every item: unchanged
filesystem for is_root items, and for staged items it removes the staged
content (recursively when a directory, as a single removal otherwise) and the
metadata sidecar, still reporting success. -/
theorem C9_erase_always_ok (fs : Fs) (item : TrashedItem) :
    (perm_delete_trash_item fs item).2 = .ok () ∧
    (item.is_root = true → (perm_delete_trash_item fs item).1 = fs) ∧
    (item.is_root = false →
      (perm_delete_trash_item fs item).1.get item.trash_file_path = none ∧
      (perm_delete_trash_item fs item).1.get item.trash_info_path = none) := by
  unfold perm_delete_trash_item
  by_cases h : item.is_root = true
  · rw [if_pos h]
    exact ⟨rfl, fun _ => rfl, fun hf => absurd h (by simp [hf])⟩
  · rw [if_neg h]
    refine ⟨rfl, fun ht => absurd ht h, fun _ => ⟨?_, ?_⟩⟩
    · rw [get_eraseFile]
      by_cases htt : item.trash_file_path = item.trash_info_path
      · rw [if_pos htt]
      · rw [if_neg htt]
        by_cases hd : fs.isDir item.trash_file_path = true
        · rw [if_pos hd, get_eraseTree, if_pos (List.prefix_refl _)]
        · rw [if_neg hd, get_eraseFile, if_pos rfl]
    · rw [get_eraseFile, if_pos rfl]

theorem C9_erase_always_ok_witness :
    ((perm_delete_trash_item c6sfs
        ⟨["home", "u", "docs", "report.txt"],
         ["home", "u", ".local", "share", "Trash", "files", "report.txt"],
         ["home", "u", ".local", "share", "Trash", "info", "report.txt.trashinfo"],
         false⟩).2 = .ok ()) ∧
    ((perm_delete_trash_item c6sfs
        ⟨["home", "u", "docs", "report.txt"],
         ["home", "u", ".local", "share", "Trash", "files", "report.txt"],
         ["home", "u", ".local", "share", "Trash", "info", "report.txt.trashinfo"],
         false⟩).1.get
        ["home", "u", ".local", "share", "Trash", "files", "report.txt"] = none) := by
  have h := C9_erase_always_ok c6sfs
    ⟨["home", "u", "docs", "report.txt"],
     ["home", "u", ".local", "share", "Trash", "files", "report.txt"],
     ["home", "u", ".local", "share", "Trash", "info", "report.txt.trashinfo"],
     false⟩
  exact ⟨h.1, (h.2.2 rfl).1⟩

/-- C7: a reversible put that fails leaves no metadata sidecar behind: every
path strictly inside the info directory reads exactly as before the call.  In
particular, when the metadata write succeeded and the rename then failed, the
written sidecar has been removed again before the error is surfaced. -/
theorem C7_failed_put_no_sidecar (env : Env) (fs : Fs) (p : FsPath) (fsR : Fs)
    (e : String) (hrev : env.home.isPrefixOf p = true)
    (h : move_to_trash env fs p = (fsR, .error e)) :
    ∀ q, infoDir env <+: q → q ≠ infoDir env → fsR.get q = fs.get q := by
  intro q hq hne
  have hnot_files : ¬ q <+: filesDir env := by
    intro hc
    exact concat_ne_of_ne (trashRoot env) "info" "files" (by decide) (hq.trans hc)
  have hnot_info : ¬ q <+: infoDir env := by
    intro hc
    exact hne (prefix_antisymm q (infoDir env) hc hq)
  unfold move_to_trash at h
  simp only [hrev, Bool.not_true, Bool.false_eq_true, if_false] at h
  split at h
  · rename_i e1 h1
    simp only [Prod.mk.injEq] at h
    rw [← h.1]
  · rename_i fs1 h1
    split at h
    · rename_i e1 h2
      simp only [Prod.mk.injEq] at h
      rw [← h.1]
      exact createDirAll_get_untouched fs (filesDir env) fs1 h1 q hnot_files
    · rename_i fs2 h2
      split at h
      · rename_i h3
        simp only [Prod.mk.injEq] at h
        rw [← h.1]
        rw [createDirAll_get_untouched fs1 (infoDir env) fs2 h2 q hnot_info]
        exact createDirAll_get_untouched fs (filesDir env) fs1 h1 q hnot_files
      · rename_i safe h3
        split at h
        · rename_i e1 h4
          simp only [Prod.mk.injEq] at h
          rw [← h.1]
          by_cases hqt : q = infoDir env ++ [safe ++ ".trashinfo"]
          · rw [get_eraseFile, if_pos hqt]
            have hfree := findSafeName_free _ _ _ _ _ _ _ _ h3
            have hnone2 := (trashNameFree_get _ _ _ _ hfree).2
            have hnone1 := createDirAll_get_none fs1 (infoDir env) fs2 h2 _ hnone2
            have hnone0 := createDirAll_get_none fs (filesDir env) fs1 h1 _ hnone1
            rw [hqt, hnone0]
          · rw [get_eraseFile, if_neg hqt, get_writeFile, if_neg hqt]
            rw [createDirAll_get_untouched fs1 (infoDir env) fs2 h2 q hnot_info]
            exact createDirAll_get_untouched fs (filesDir env) fs1 h1 q hnot_files
        · rename_i fs4 h4
          simp at h

theorem C7_failed_put_no_sidecar_witness :
    (move_to_trash wEnv c1fs ["home", "u", "ghost"]).1.get
        (infoDir wEnv ++ ["ghost.trashinfo"]) =
      c1fs.get (infoDir wEnv ++ ["ghost.trashinfo"]) :=
  C7_failed_put_no_sidecar wEnv c1fs ["home", "u", "ghost"]
    (move_to_trash wEnv c1fs ["home", "u", "ghost"]).1
    "Failed to move to trash: rename: source does not exist"
    (by decide) rfl
    (infoDir wEnv ++ ["ghost.trashinfo"]) ⟨["ghost.trashinfo"], rfl⟩ (by decide)

theorem addToBucket_sum (acc : List (FsPath × Nat)) (key : FsPath) (sz : Nat) :
    ((addToBucket acc key sz).map (fun b => b.2)).sum =
      ((acc.map (fun b => b.2)).sum) + sz := by
  induction acc with
  | nil => simp [addToBucket]
  | cons a rest ih =>
    obtain ⟨k, s⟩ := a
    unfold addToBucket
    by_cases hk : k = key
    · rw [if_pos hk]
      simp only [List.map_cons, List.sum_cons]
      omega
    · rw [if_neg hk]
      simp only [List.map_cons, List.sum_cons, ih]
      omega

theorem foldl_buckets_sum (fs : Fs) (root : FsPath) (l : List (FsPath × Node)) :
    ∀ acc : List (FsPath × Nat),
      ((l.foldl (fun acc e =>
          if visitedFile fs root e.1 e.2 then
            addToBucket acc (bucketKey root e.1) (fileSizeOf e.2)
          else acc) acc).map (fun b => b.2)).sum =
        (acc.map (fun b => b.2)).sum +
          (l.map (fun e =>
            if visitedFile fs root e.1 e.2 then fileSizeOf e.2 else 0)).sum := by
  induction l with
  | nil => simp
  | cons e rest ih =>
    intro acc
    rw [List.foldl_cons, List.map_cons, List.sum_cons]
    by_cases hv : visitedFile fs root e.1 e.2 = true
    · rw [if_pos hv, if_pos hv, ih, addToBucket_sum]
      omega
    · rw [if_neg hv, if_neg hv, ih]
      omega

theorem scanBuckets_sum (fs : Fs) (root : FsPath) :
    ((scanBuckets fs root).map (fun b => b.2)).sum = totalVisitedSize fs root := by
  unfold scanBuckets totalVisitedSize
  rw [foldl_buckets_sum]
  simp

theorem insertBySize_perm (a : DirEntry) (l : List DirEntry) :
    (insertBySize a l).Perm (a :: l) := by
  induction l with
  | nil => exact List.Perm.refl _
  | cons b bs ih =>
    unfold insertBySize
    by_cases h : b.size ≤ a.size
    · rw [if_pos h]
    · rw [if_neg h]
      exact (List.Perm.cons b ih).trans (List.Perm.swap a b bs)

theorem sortBySize_perm (l : List DirEntry) : (sortBySize l).Perm l := by
  induction l with
  | nil => exact List.Perm.refl _
  | cons a rest ih =>
    unfold sortBySize
    exact (insertBySize_perm a (sortBySize rest)).trans (List.Perm.cons a ih)

theorem mem_insertBySize (y a : DirEntry) (l : List DirEntry)
    (h : y ∈ insertBySize a l) : y = a ∨ y ∈ l := by
  have := (insertBySize_perm a l).mem_iff.mp h
  simpa using this

theorem pairwise_insertBySize (a : DirEntry) (l : List DirEntry)
    (h : List.Pairwise (fun x y => y.size ≤ x.size) l) :
    List.Pairwise (fun x y => y.size ≤ x.size) (insertBySize a l) := by
  induction l with
  | nil => simp [insertBySize]
  | cons b bs ih =>
    rcases List.pairwise_cons.mp h with ⟨hb, hbs⟩
    unfold insertBySize
    by_cases hle : b.size ≤ a.size
    · rw [if_pos hle]
      refine List.pairwise_cons.mpr ⟨?_, h⟩
      intro y hy
      rcases List.mem_cons.mp hy with rfl | hy2
      · exact hle
      · exact Nat.le_trans (hb y hy2) hle
    · rw [if_neg hle]
      refine List.pairwise_cons.mpr ⟨?_, ih hbs⟩
      intro y hy
      rcases mem_insertBySize y a bs hy with rfl | hy2
      · exact Nat.le_of_lt (Nat.lt_of_not_le hle)
      · exact hb y hy2

theorem pairwise_sortBySize (l : List DirEntry) :
    List.Pairwise (fun x y => y.size ≤ x.size) (sortBySize l) := by
  induction l with
  | nil => simp [sortBySize]
  | cons a rest ih => exact pairwise_insertBySize a (sortBySize rest) ih

theorem visitedFile_false_of_no_root (fs : Fs) (root : FsPath)
    (hroot : fs.pathExists root = false) (e : FsPath × Node)
    (he : e ∈ fs.entries) : visitedFile fs root e.1 e.2 = false := by
  have hget : fs.get root = none := by
    unfold Fs.pathExists at hroot
    rcases hg : fs.get root with _ | v
    · rfl
    · rw [hg] at hroot
      simp at hroot
  rw [Bool.eq_false_iff]
  intro hv
  unfold visitedFile at hv
  rw [Bool.and_eq_true, Bool.and_eq_true] at hv
  obtain ⟨⟨hfile, hpref⟩, hchain⟩ := hv
  have hpre : root <+: e.1 := List.isPrefixOf_iff_prefix.mp hpref
  by_cases heq : e.1 = root
  · exact (lookupEntries_none_iff fs.entries root).mp hget e he heq
  · have hlt : root.length < e.1.length := by
      rcases Nat.lt_or_ge root.length e.1.length with h | h
      · exact h
      · exact absurd (List.IsPrefix.eq_of_length hpre
          (Nat.le_antisymm (List.IsPrefix.length_le hpre) h)).symm heq
    unfold readableChainOk at hchain
    rw [List.all_eq_true] at hchain
    have hx := hchain root.length (by
      rw [List.mem_range'_1]
      omega)
    have htake : e.1.take root.length = root := by
      obtain ⟨t, ht⟩ := hpre
      rw [← ht, List.take_left]
    rw [htake, hget] at hx
    exact absurd hx (by simp)

theorem totalVisitedSize_zero_of_no_root (fs : Fs) (root : FsPath)
    (hroot : fs.pathExists root = false) : totalVisitedSize fs root = 0 := by
  unfold totalVisitedSize
  refine List.sum_eq_zero ?_
  intro x hx
  rcases List.mem_map.mp hx with ⟨e, he, rfl⟩
  rw [visitedFile_false_of_no_root fs root hroot e he]
  simp

theorem foldl_no_visit (fs : Fs) (root : FsPath) (l : List (FsPath × Node))
    (hall : ∀ e ∈ l, visitedFile fs root e.1 e.2 = false) :
    ∀ acc : List (FsPath × Nat),
      l.foldl (fun acc e =>
        if visitedFile fs root e.1 e.2 then
          addToBucket acc (bucketKey root e.1) (fileSizeOf e.2)
        else acc) acc = acc := by
  induction l with
  | nil => intro acc; rfl
  | cons e rest ih =>
    intro acc
    rw [List.foldl_cons, if_neg (by simp [hall e (List.mem_cons_self _ _)])]
    exact ih (fun x hx => hall x (List.mem_cons_of_mem _ hx)) acc

theorem scanBuckets_nil_of_no_root (fs : Fs) (root : FsPath)
    (hf : fs.pathExists root = false) : scanBuckets fs root = [] := by
  unfold scanBuckets
  exact foldl_no_visit fs root fs.entries
    (fun e he => visitedFile_false_of_no_root fs root hf e he) []

theorem scanRows_map_size (fs : Fs) (root : FsPath) :
    (scanRows fs root).map (fun e => e.size) =
      (scanBuckets fs root).map (fun b => b.2) := by
  unfold scanRows
  rw [List.map_map]
  rfl

/-- C4 (amended): as long as at most 50 direct children receive attribution,
the sum of the emitted sizes equals the total bytes of all regular files in
the walked tree that are not beneath an unreadable directory; each file is
attributed to the bucket of its unique direct child of the root (files lying
directly in the root are attributed to themselves), which is what the bucket
accumulation of the model performs.  The truncation to 50 rows makes the
unrestricted sum claim false, see the counterexample. -/
theorem C4_sum_within_cap (fs : Fs) (root : FsPath)
    (hle : (scanBuckets fs root).length ≤ 50) :
    ((scan_directory fs root).map (fun e => e.size)).sum =
      totalVisitedSize fs root := by
  unfold scan_directory
  by_cases hex : fs.pathExists root = true
  · rw [if_neg (by simp [hex])]
    have hlenr : (scanRows fs root).length ≤ 50 := by
      unfold scanRows
      simpa using hle
    have hsperm := sortBySize_perm (scanRows fs root)
    have hlen : (sortBySize (scanRows fs root)).length ≤ 50 := by
      rw [hsperm.length_eq]
      exact hlenr
    rw [List.take_of_length_le hlen]
    rw [(hsperm.map (fun e => e.size)).sum_eq, scanRows_map_size]
    exact scanBuckets_sum fs root
  · have hf : fs.pathExists root = false := by
      simpa using hex
    rw [if_pos (by simp [hf])]
    rw [totalVisitedSize_zero_of_no_root fs root hf]
    rfl

theorem C4_sum_within_cap_witness :
    ((scan_directory c5fs ["r"]).map (fun e => e.size)).sum =
      totalVisitedSize c5fs ["r"] :=
  C4_sum_within_cap c5fs ["r"] (by decide)

/-- C4 counterexample: with 51 one-byte files directly in the root, the sum
of the emitted sizes is 50 while the total bytes of regular files in the
tree is 51, because the result is truncated to 50 entries.  The claim as
stated, which demands equality for every directory tree, is false. -/
theorem C4_sum_counterexample :
    ¬ (((scan_directory c4fs ["r"]).map (fun e => e.size)).sum =
        totalVisitedSize c4fs ["r"]) := by
  decide

/-- C5 (amended): the emitted sequence is sorted by size descending and
holds at most 50 entries; when more than 50 direct children receive
attribution (only children with at least one regular file beneath them, or
root-level files, produce rows at all) exactly 50 rows are returned and they
form a size-maximal choice: every dropped row is no larger than every kept
row.  Ties are emitted in the (unspecified) HashMap iteration order,
modelled as first-insertion order, not in path order; the path tie-break of
the claim is refuted by the counterexample. -/
theorem C5_order_cap_top (fs : Fs) (root : FsPath) :
    List.Pairwise (fun x y => y.size ≤ x.size) (scan_directory fs root) ∧
    (scan_directory fs root).length ≤ 50 ∧
    (50 < (scanRows fs root).length → (scan_directory fs root).length = 50) ∧
    (∃ dropped, (scanRows fs root).Perm (scan_directory fs root ++ dropped) ∧
      ∀ x ∈ scan_directory fs root, ∀ y ∈ dropped, y.size ≤ x.size) := by
  unfold scan_directory
  by_cases hex : fs.pathExists root = true
  · rw [if_neg (by simp [hex])]
    have hsperm := sortBySize_perm (scanRows fs root)
    have hpair := pairwise_sortBySize (scanRows fs root)
    refine ⟨List.Pairwise.sublist (List.take_sublist 50 _) hpair, ?_, ?_, ?_⟩
    · rw [List.length_take]
      exact Nat.min_le_left _ _
    · intro hgt
      rw [List.length_take, hsperm.length_eq]
      omega
    · refine ⟨(sortBySize (scanRows fs root)).drop 50, ?_, ?_⟩
      · rw [List.take_append_drop]
        exact hsperm.symm
      · intro x hx y hy
        have hsplit := List.pairwise_append.mp
          (by rw [List.take_append_drop 50 (sortBySize (scanRows fs root))]
              exact hpair)
        exact hsplit.2.2 x hx y hy
  · have hf : fs.pathExists root = false := by
      simpa using hex
    rw [if_pos (by simp [hf])]
    have hrows : scanRows fs root = [] := by
      unfold scanRows
      rw [scanBuckets_nil_of_no_root fs root hf]
      rfl
    refine ⟨List.Pairwise.nil, by simp, ?_, [], by simp [hrows], by simp⟩
    intro hgt
    rw [hrows] at hgt
    simp at hgt

theorem C5_order_cap_top_witness :
    (scan_directory c4fs ["r"]).length = 50 ∧
    List.Pairwise (fun x y => y.size ≤ x.size) (scan_directory c4fs ["r"]) :=
  ⟨(C5_order_cap_top c4fs ["r"]).2.2.1 (by decide),
   (C5_order_cap_top c4fs ["r"]).1⟩

/-- C5 counterexample: two children of equal size are emitted in accumulation
order b then a, not in the natural path order a then b; the sequence is
therefore not sorted by size descending with ties broken by path order, as
the claim states. -/
theorem C5_tie_counterexample :
    ¬ List.Pairwise (fun x y =>
        y.size < x.size ∨ (y.size = x.size ∧ pathLexLe x.path y.path = true))
      (scan_directory c5fs ["r"]) := by
  decide

theorem concat_not_prefix_cons (l : List String) (a b : String) (t : List String)
    (hab : a ≠ b) : ¬ (l ++ [a] <+: l ++ (b :: t)) := fun h =>
  hab (List.cons_prefix_cons.mp ((List.prefix_append_right_inj l).mp h)).1

theorem createDirAll_get_cases (fs : Fs) (p : FsPath) (fs2 : Fs)
    (h : fs.createDirAll p = .ok fs2) (q : FsPath) :
    fs2.get q = fs.get q ∨ (fs2.get q = some (.dir true) ∧ q <+: p) := by
  rcases createDirAllAux_get p fs [] fs2 h q with h1 | h1
  · exact Or.inl h1
  · obtain ⟨_, hb, k, _, _, hkq⟩ := h1
    rw [List.nil_append] at hkq
    exact Or.inr ⟨hb, hkq ▸ List.take_prefix k p⟩

theorem dst_not_prefix_tip (env : Env) (safe y : String) :
    ¬ (filesDir env ++ [safe] <+: infoDir env ++ [y]) := by
  intro h
  have h1 : filesDir env <+: infoDir env ++ [y] :=
    (List.prefix_append (filesDir env) [safe]).trans h
  unfold filesDir infoDir at h1
  rw [List.append_assoc] at h1
  exact concat_not_prefix_cons (trashRoot env) "files" "info" [y] (by decide)
    (by simpa using h1)

theorem put_names_fresh (env : Env) (fs fs1a fs2a : Fs) (safe : String)
    (hc1 : fs.createDirAll (filesDir env) = .ok fs1a)
    (hc2 : fs1a.createDirAll (infoDir env) = .ok fs2a)
    (hfree : trashNameFree fs2a (filesDir env) (infoDir env) safe = true) :
    fs.get (filesDir env ++ [safe]) = none ∧
    fs.get (infoDir env ++ [safe ++ ".trashinfo"]) = none := by
  obtain ⟨hf1, hf2⟩ := trashNameFree_get fs2a (filesDir env) (infoDir env) safe hfree
  exact ⟨createDirAll_get_none fs (filesDir env) fs1a hc1 _
           (createDirAll_get_none fs1a (infoDir env) fs2a hc2 _ hf1),
         createDirAll_get_none fs (filesDir env) fs1a hc1 _
           (createDirAll_get_none fs1a (infoDir env) fs2a hc2 _ hf2)⟩

theorem put_dst_subtree_fresh (env : Env) (fs fs1a fs2a : Fs) (safe : String)
    (d : String) (hwf : fs.wf = true)
    (hc1 : fs.createDirAll (filesDir env) = .ok fs1a)
    (hc2 : fs1a.createDirAll (infoDir env) = .ok fs2a)
    (hfree : trashNameFree fs2a (filesDir env) (infoDir env) safe = true) :
    ∀ r, (filesDir env ++ [safe]) <+: r →
      (fs2a.writeFile (infoDir env ++ [safe ++ ".trashinfo"]) d).get r = none := by
  intro r hr
  have hdst0 : fs.get (filesDir env ++ [safe]) = none :=
    (put_names_fresh env fs fs1a fs2a safe hc1 hc2 hfree).1
  have hrtip : ¬ r = infoDir env ++ [safe ++ ".trashinfo"] := by
    intro hc
    exact dst_not_prefix_tip env safe (safe ++ ".trashinfo") (hc ▸ hr)
  rw [get_writeFile, if_neg hrtip]
  have hlen_dst : (filesDir env ++ [safe]).length = (trashRoot env).length + 2 := by
    unfold filesDir
    simp
  have hlen_files : (filesDir env).length = (trashRoot env).length + 1 := by
    unfold filesDir
    simp
  have hlen_info : (infoDir env).length = (trashRoot env).length + 1 := by
    unfold infoDir
    simp
  have ha := List.IsPrefix.length_le hr
  rw [hlen_dst] at ha
  rcases createDirAll_get_cases fs1a (infoDir env) fs2a hc2 r with h2 | h2
  · rw [h2]
    rcases createDirAll_get_cases fs (filesDir env) fs1a hc1 r with h1 | h1
    · rw [h1]
      by_cases hrd : r = filesDir env ++ [safe]
      · rw [hrd]
        exact hdst0
      · exact wf_subtree_absent fs hwf (filesDir env ++ [safe]) hdst0
          (by rw [hlen_dst]; omega) r hr hrd
    · obtain ⟨_, hpre⟩ := h1
      have hb := List.IsPrefix.length_le hpre
      rw [hlen_files] at hb
      omega
  · obtain ⟨_, hpre⟩ := h2
    have hb := List.IsPrefix.length_le hpre
    rw [hlen_info] at hb
    omega

theorem rev_of_ok_not_root (env : Env) (fs : Fs) (p : FsPath) (fsR : Fs)
    (item : TrashedItem) (h : move_to_trash env fs p = (fsR, .ok item))
    (hr : item.is_root = false) : env.home.isPrefixOf p = true := by
  by_cases hb : env.home.isPrefixOf p = true
  · exact hb
  · have hf : env.home.isPrefixOf p = false := Bool.eq_false_iff.mpr hb
    rw [move_root_eq env fs p hf] at h
    simp only [Prod.mk.injEq, Except.ok.injEq] at h
    rw [← h.2] at hr
    simp at hr

/-- C6 (amended): a successful reversible put stages under a name for which
neither the candidate file-storage path nor the candidate metadata path
existed beforehand, and two successive reversible puts on a well-formed
filesystem never produce colliding trash_file_path values (the staged file
and sidecar of the first put reserve its name for as long as they remain in
the staging area).  Records further apart can collide once the staging area
itself is trashed from the deep scanner, see the counterexample. -/
theorem C6_staged_names_fresh (env : Env) (fs fs1 fs2 : Fs) (p1 p2 : FsPath)
    (item1 item2 : TrashedItem) (hwf : fs.wf = true)
    (h1 : move_to_trash env fs p1 = (fs1, .ok item1)) (hr1 : item1.is_root = false)
    (h2 : move_to_trash env fs1 p2 = (fs2, .ok item2)) (hr2 : item2.is_root = false) :
    fs.get item1.trash_file_path = none ∧
    fs.get item1.trash_info_path = none ∧
    item2.trash_file_path ≠ item1.trash_file_path := by
  have hrev1 := rev_of_ok_not_root env fs p1 fs1 item1 h1 hr1
  have hrev2 := rev_of_ok_not_root env fs1 p2 fs2 item2 h2 hr2
  obtain ⟨fa, fb, safe1, hc1, hc2, hfs1, hitem1, hren1⟩ :=
    move_rev_ok env fs p1 fs1 item1 hrev1 h1
  obtain ⟨ga, gb, safe2, hd1, hd2, hfs2, hitem2, hren2⟩ :=
    move_rev_ok env fs1 p2 fs2 item2 hrev2 h2
  have hfree1 := findSafeName_free _ _ _ _ _ _ _ _ hfs1
  have hfree2 := findSafeName_free _ _ _ _ _ _ _ _ hfs2
  have hfresh := put_names_fresh env fs fa fb safe1 hc1 hc2 hfree1
  obtain ⟨hsome, hnsd, hdstnone, hentries⟩ := rename_ok_facts _ _ _ _ hren1
  have hstage : (fs1.get (filesDir env ++ [safe1])).isSome = true := by
    have hgetdst : fs1.get (filesDir env ++ [safe1]) =
        (fb.writeFile (infoDir env ++ [safe1 ++ ".trashinfo"])
          (infoContent p1 env.now)).get p1 := by
      unfold Fs.get
      rw [hentries]
      have hd := lookup_ren_dstside
        (fb.writeFile (infoDir env ++ [safe1 ++ ".trashinfo"])
          (infoContent p1 env.now)).entries
        p1 (filesDir env ++ [safe1]) (filesDir env ++ [safe1])
        (List.prefix_refl _) hnsd
        (fun r hr => put_dst_subtree_fresh env fs fa fb safe1
          (infoContent p1 env.now) hwf hc1 hc2 hfree1 r hr)
      rw [hd, List.drop_length, List.append_nil]
    rw [hgetdst]
    exact hsome
  have hstage2 : (gb.get (filesDir env ++ [safe1])).isSome = true := by
    rcases Option.isSome_iff_exists.mp hstage with ⟨v, hv⟩
    rw [createDirAll_get_some ga (infoDir env) gb hd2 _ v
      (createDirAll_get_some fs1 (filesDir env) ga hd1 _ v hv)]
    rfl
  have hdiff : safe2 ≠ safe1 := by
    intro he
    have hn := (trashNameFree_get gb (filesDir env) (infoDir env) safe2 hfree2).1
    rw [he] at hn
    rw [hn] at hstage2
    simp at hstage2
  refine ⟨?_, ?_, ?_⟩
  · rw [hitem1]
    exact hfresh.1
  · rw [hitem1]
    exact hfresh.2
  · rw [hitem1, hitem2]
    intro he
    simp only [TrashedItem.trash_file_path] at he
    have hx := List.append_cancel_left he
    injection hx with hy
    exact hdiff hy

theorem C6_staged_names_fresh_witness :
    (move_to_trash wEnv c6sfs ["home", "u", "docs", "report.txt"]).2 =
      .ok ⟨["home", "u", "docs", "report.txt"],
           ["home", "u", ".local", "share", "Trash", "files", "report.txt_1"],
           ["home", "u", ".local", "share", "Trash", "info", "report.txt_1.trashinfo"],
           false⟩ ∧
    c6sfs.get ["home", "u", ".local", "share", "Trash", "files", "report.txt_1"] = none ∧
    c6sfs.get ["home", "u", ".local", "share", "Trash", "info", "report.txt_1.trashinfo"] = none ∧
    (⟨["home", "u", "docs"],
      ["home", "u", ".local", "share", "Trash", "files", "docs"],
      ["home", "u", ".local", "share", "Trash", "info", "docs.trashinfo"],
      false⟩ : TrashedItem).trash_file_path ≠
      (⟨["home", "u", "docs", "report.txt"],
        ["home", "u", ".local", "share", "Trash", "files", "report.txt_1"],
        ["home", "u", ".local", "share", "Trash", "info", "report.txt_1.trashinfo"],
        false⟩ : TrashedItem).trash_file_path := by
  refine ⟨rfl, ?_⟩
  exact C6_staged_names_fresh wEnv c6sfs
    (move_to_trash wEnv c6sfs ["home", "u", "docs", "report.txt"]).1
    (move_to_trash wEnv
      (move_to_trash wEnv c6sfs ["home", "u", "docs", "report.txt"]).1
      ["home", "u", "docs"]).1
    ["home", "u", "docs", "report.txt"] ["home", "u", "docs"]
    ⟨["home", "u", "docs", "report.txt"],
     ["home", "u", ".local", "share", "Trash", "files", "report.txt_1"],
     ["home", "u", ".local", "share", "Trash", "info", "report.txt_1.trashinfo"],
     false⟩
    ⟨["home", "u", "docs"],
     ["home", "u", ".local", "share", "Trash", "files", "docs"],
     ["home", "u", ".local", "share", "Trash", "info", "docs.trashinfo"],
     false⟩
    (by decide) rfl rfl rfl rfl

/-- C6 counterexample to the pending-collision invariant: four successful
puts, none of whose records is ever restored or erased (so all four stay
pending).  The second put trashes the staged file files/a itself and the
third trashes its metadata sidecar info/a.trashinfo, both reachable by
browsing the staging area in the deep scanner; after that nothing reserves
the name a, and the fourth put stages a different file under files/a, the
same trash_file_path as the still-pending first record.  The claim that no
two pending records ever reference colliding trash_file_path values is
false. -/
theorem C6_pending_collision_counterexample :
    c6put1.2.toOption.map (fun i => i.trash_file_path) =
      some ["home", "u", ".local", "share", "Trash", "files", "a"] ∧
    c6put4.2.toOption.map (fun i => i.trash_file_path) =
      some ["home", "u", ".local", "share", "Trash", "files", "a"] ∧
    c6put2.2.isOk = true ∧ c6put3.2.isOk = true := by
  exact ⟨rfl, rfl, rfl, rfl⟩

theorem not_prefix_files_of_conds (env : Env) (p : FsPath)
    (h1 : ¬ p <+: trashRoot env) (h2 : ¬ trashRoot env <+: p) :
    ¬ p <+: filesDir env := by
  intro hc
  unfold filesDir at hc
  rcases List.prefix_concat_iff.mp hc with hc1 | hc1
  · exact h2 (hc1 ▸ List.prefix_append _ _)
  · exact h1 hc1

theorem not_prefix_info_of_conds (env : Env) (p : FsPath)
    (h1 : ¬ p <+: trashRoot env) (h2 : ¬ trashRoot env <+: p) :
    ¬ p <+: infoDir env := by
  intro hc
  unfold infoDir at hc
  rcases List.prefix_concat_iff.mp hc with hc1 | hc1
  · exact h2 (hc1 ▸ List.prefix_append _ _)
  · exact h1 hc1

theorem move_preserves_absent (env : Env) (fs : Fs) (q p : FsPath)
    (h1 : ¬ p <+: trashRoot env) (h2 : ¬ trashRoot env <+: p)
    (ha : fs.get p = none) :
    ((move_to_trash env fs q).1).get p = none := by
  have hnf := not_prefix_files_of_conds env p h1 h2
  have hni := not_prefix_info_of_conds env p h1 h2
  have hcreate : ∀ fsx fsy : Fs, fsx.createDirAll (filesDir env) = .ok fsy →
      fsx.get p = none → fsy.get p = none := by
    intro fsx fsy hc hn
    rcases createDirAll_get_cases fsx (filesDir env) fsy hc p with hh | hh
    · rw [hh, hn]
    · exact absurd hh.2 hnf
  have hcreate2 : ∀ fsx fsy : Fs, fsx.createDirAll (infoDir env) = .ok fsy →
      fsx.get p = none → fsy.get p = none := by
    intro fsx fsy hc hn
    rcases createDirAll_get_cases fsx (infoDir env) fsy hc p with hh | hh
    · rw [hh, hn]
    · exact absurd hh.2 hni
  unfold move_to_trash
  by_cases hb : env.home.isPrefixOf q = true
  · simp only [hb, Bool.not_true, Bool.false_eq_true, if_false]
    split
    · exact ha
    · rename_i fs1 hc1
      split
      · exact hcreate fs fs1 hc1 ha
      · rename_i fs2 hc2
        split
        · exact hcreate2 fs1 fs2 hc2 (hcreate fs fs1 hc1 ha)
        · rename_i safe hsafe
          have hp3 : ((fs2.writeFile (infoDir env ++ [safe ++ ".trashinfo"])
              (infoContent q env.now))).get p = none := by
            rw [get_writeFile]
            by_cases hpt : p = infoDir env ++ [safe ++ ".trashinfo"]
            · exfalso
              apply h2
              rw [hpt]
              exact (List.prefix_append (trashRoot env) ["info"]).trans
                (List.prefix_append (infoDir env) [safe ++ ".trashinfo"])
            · rw [if_neg hpt]
              exact hcreate2 fs1 fs2 hc2 (hcreate fs fs1 hc1 ha)
          split
          · rename_i e hren
            simp only
            rw [get_eraseFile]
            by_cases hpt : p = infoDir env ++ [safe ++ ".trashinfo"]
            · rw [if_pos hpt]
            · rw [if_neg hpt]
              exact hp3
          · rename_i fs4 hren
            simp only
            obtain ⟨_, _, _, hentries⟩ := rename_ok_facts _ _ _ _ hren
            unfold Fs.get
            rw [hentries]
            refine lookup_ren_absent _ q (filesDir env ++ [safe]) p ?_ hp3
            intro hc
            have : filesDir env <+: p := (List.prefix_append _ _).trans hc
            have : trashRoot env <+: p := (List.prefix_append _ _).trans this
            exact h2 this
  · have hf : env.home.isPrefixOf q = false := Bool.eq_false_iff.mpr hb
    simp only [hf, Bool.not_false, if_true]
    rw [get_eraseTree]
    by_cases hqp : q <+: p
    · rw [if_pos hqp]
    · rw [if_neg hqp]
      exact ha

theorem trashPaths_preserves_absent (env : Env) (ps : List FsPath) (p : FsPath)
    (h1 : ¬ p <+: trashRoot env) (h2 : ¬ trashRoot env <+: p) :
    ∀ fs : Fs, fs.get p = none → ((trashPaths env fs ps).1).get p = none := by
  induction ps with
  | nil => intro fs ha; exact ha
  | cons q rest ih =>
    intro fs ha
    have hstep := move_preserves_absent env fs q p h1 h2 ha
    unfold trashPaths
    rcases hm : move_to_trash env fs q with ⟨fs1, r⟩
    have hfs1 : fs1.get p = none := by
      have := congrArg Prod.fst hm
      simp only at this
      rw [← this]
      exact hstep
    rcases r with e | item
    · exact ih fs1 hfs1
    · exact ih fs1 hfs1

theorem trashPaths_removes_outside (env : Env) (ps : List FsPath) (p : FsPath)
    (hmem : p ∈ ps) (hout : env.home.isPrefixOf p = false)
    (h1 : ¬ p <+: trashRoot env) (h2 : ¬ trashRoot env <+: p) :
    ∀ fs : Fs, ((trashPaths env fs ps).1).get p = none := by
  induction ps with
  | nil => exact absurd hmem (List.not_mem_nil p)
  | cons q rest ih =>
    intro fs
    unfold trashPaths
    rcases List.mem_cons.mp hmem with rfl | hmem2
    · rw [move_root_eq env fs p hout]
      have hgone : (fs.eraseTree p).get p = none := by
        rw [get_eraseTree, if_pos (List.prefix_refl p)]
      exact trashPaths_preserves_absent env rest p h1 h2 _ hgone
    · rcases hm : move_to_trash env fs q with ⟨fs1, r⟩
      rcases r with e | item
      · exact ih hmem2 fs1
      · exact ih hmem2 fs1

/-- C2: committing a selection that contains at least one out-of-home path
while the warning gate is idle performs no filesystem mutation, leaves the
session trash list and the selection untouched, and only flips the gate to
awaiting-confirmation; committing again from that state runs the per-path
trash loop over the whole selection, clears it, returns the gate to idle,
and in particular every selected out-of-home path disjoint from the trash
staging root has been removed from the filesystem. -/
theorem C2_confirmation_gate (env : Env) (s : App)
    (hidle : s.show_root_warning = false) (hsel : s.selected_paths ≠ [])
    (hroot : ∃ p ∈ s.selected_paths, env.home.isPrefixOf p = false) :
    execute_deep_scanner_trash env s = { s with show_root_warning := true } ∧
    execute_deep_scanner_trash env (execute_deep_scanner_trash env s) =
      { s with fs := (trashPaths env s.fs s.selected_paths).1
               trashed_items := s.trashed_items ++ (trashPaths env s.fs s.selected_paths).2
               selected_paths := []
               show_root_warning := false
               scan_results := scan_directory (trashPaths env s.fs s.selected_paths).1
                 s.current_scan_path
               scanner_index := 0 } ∧
    (∀ p ∈ s.selected_paths, env.home.isPrefixOf p = false →
      ¬ p <+: trashRoot env → ¬ trashRoot env <+: p →
      ((execute_deep_scanner_trash env (execute_deep_scanner_trash env s)).fs).get p =
        none) := by
  have hne : s.selected_paths.isEmpty = false := by
    rcases hh : s.selected_paths with _ | ⟨a, t⟩
    · exact absurd hh hsel
    · rfl
  have hany : (s.selected_paths.any fun p => !(env.home.isPrefixOf p)) = true := by
    rw [List.any_eq_true]
    obtain ⟨p, hp, hf⟩ := hroot
    refine ⟨p, hp, ?_⟩
    rw [hf]
    rfl
  have hc1 : ¬ (s.selected_paths.isEmpty = true) := by
    rw [hne]
    exact Bool.false_ne_true
  have h1 : execute_deep_scanner_trash env s = { s with show_root_warning := true } := by
    unfold execute_deep_scanner_trash
    rw [if_neg hc1, if_pos (by rw [hany, hidle]; rfl)]
  have hc2s1 : ¬ (((({ s with show_root_warning := true } : App).selected_paths.any
      fun p => !(env.home.isPrefixOf p)) &&
        !(({ s with show_root_warning := true } : App).show_root_warning)) = true) := by
    intro hc
    have hc' : ((s.selected_paths.any fun p => !(env.home.isPrefixOf p)) && false) = true := hc
    rw [Bool.and_false] at hc'
    exact Bool.false_ne_true hc'
  have h2 : execute_deep_scanner_trash env { s with show_root_warning := true } =
      { s with fs := (trashPaths env s.fs s.selected_paths).1
               trashed_items := s.trashed_items ++ (trashPaths env s.fs s.selected_paths).2
               selected_paths := []
               show_root_warning := false
               scan_results := scan_directory (trashPaths env s.fs s.selected_paths).1
                 s.current_scan_path
               scanner_index := 0 } := by
    unfold execute_deep_scanner_trash
    rw [if_neg hc1, if_neg hc2s1]
  refine ⟨h1, by rw [h1, h2], ?_⟩
  intro p hp hf hpa hpb
  rw [h1, h2]
  exact trashPaths_removes_outside env s.selected_paths p hp hf hpa hpb s.fs

theorem C2_confirmation_gate_witness :
    execute_deep_scanner_trash wEnv c2s = { c2s with show_root_warning := true } ∧
    ((execute_deep_scanner_trash wEnv (execute_deep_scanner_trash wEnv c2s)).fs).get
      ["etc", "foo"] = none ∧
    (execute_deep_scanner_trash wEnv
      (execute_deep_scanner_trash wEnv c2s)).show_root_warning = false := by
  have h := C2_confirmation_gate wEnv c2s rfl (by decide)
    ⟨["etc", "foo"], by decide, by decide⟩
  refine ⟨h.1, ?_, ?_⟩
  · exact h.2.2 ["etc", "foo"] (by decide) (by decide) (by decide) (by decide)
  · rw [h.2.1]

/-- C8 (amended): every commit that executes deletions, whether a purely
in-home selection committed with the gate idle or any selection re-committed
from awaiting-confirmation, appends to the session trash list exactly the
records of the successful per-path puts; an undo or a permanent-delete
keystroke on the session-trash tab removes the highlighted record from the
list unconditionally, whether or not the underlying filesystem operation
succeeds (the code removes first and discards the result, so a failed
restore still drops the record, see the counterexample). -/
theorem C8_trash_list_lifecycle (env : Env) (s : App) :
    (s.active_tab = .SessionTrash → s.trashed_items ≠ [] →
      s.session_trash_index < s.trashed_items.length →
      (execute_undo_trash s).trashed_items =
        s.trashed_items.eraseIdx s.session_trash_index) ∧
    (s.trashed_items ≠ [] → s.session_trash_index < s.trashed_items.length →
      (execute_session_trash_delete s).trashed_items =
        s.trashed_items.eraseIdx s.session_trash_index) ∧
    (s.selected_paths ≠ [] →
      ((s.selected_paths.any fun p => !(env.home.isPrefixOf p)) = false ∨
        s.show_root_warning = true) →
      (execute_deep_scanner_trash env s).trashed_items =
        s.trashed_items ++ (trashPaths env s.fs s.selected_paths).2) := by
  refine ⟨?_, ?_, ?_⟩
  · intro htab hne hlt
    have hemp : s.trashed_items.isEmpty = false := by
      rcases hh : s.trashed_items with _ | ⟨a, t⟩
      · exact absurd hh hne
      · rfl
    unfold execute_undo_trash
    rw [if_neg (by rw [htab, hemp]; simp)]
    split
    · rename_i heq
      rw [List.getElem?_eq_getElem hlt] at heq
      exact absurd heq (by simp)
    · rfl
  · intro hne hlt
    have hemp : s.trashed_items.isEmpty = false := by
      rcases hh : s.trashed_items with _ | ⟨a, t⟩
      · exact absurd hh hne
      · rfl
    unfold execute_session_trash_delete
    rw [if_neg (by rw [hemp]; exact Bool.false_ne_true)]
    split
    · rename_i heq
      rw [List.getElem?_eq_getElem hlt] at heq
      exact absurd heq (by simp)
    · rfl
  · intro hne hcond
    have hemp : s.selected_paths.isEmpty = false := by
      rcases hh : s.selected_paths with _ | ⟨a, t⟩
      · exact absurd hh hne
      · rfl
    have hgate : ¬ (((s.selected_paths.any fun p => !(env.home.isPrefixOf p)) &&
        !s.show_root_warning) = true) := by
      rcases hcond with hc | hc
      · rw [hc]
        simp
      · rw [hc]
        simp
    unfold execute_deep_scanner_trash
    rw [if_neg (by rw [hemp]; exact Bool.false_ne_true), if_neg hgate]

theorem C8_trash_list_lifecycle_witness :
    (execute_undo_trash c8s).trashed_items = [] ∧
    (execute_deep_scanner_trash wEnv c8si).trashed_items =
      c8si.trashed_items ++ (trashPaths wEnv c8si.fs c8si.selected_paths).2 ∧
    (execute_deep_scanner_trash wEnv c8si).trashed_items.length = 1 :=
  ⟨((C8_trash_list_lifecycle wEnv c8s).1 rfl (by decide) (by decide)).trans (by decide),
   (C8_trash_list_lifecycle wEnv c8si).2.2 (by decide) (Or.inl (by decide)),
   by decide⟩

/-- C8 counterexample: in the reachable state c8s the session trash holds a
single is_root record; pressing u removes it from the list even though the
restore operation fails (is_root items can never be restored).  The claim
that a failed undo leaves the record in the list is false. -/
theorem C8_failed_restore_record_dropped :
    c8s.active_tab = ActiveTab.SessionTrash ∧
    c8s.trashed_items = [⟨["etc"], [], [], true⟩] ∧
    (restore_trash_item c8s.fs (⟨["etc"], [], [], true⟩ : TrashedItem)).2 =
      .error "Cannot restore permanently deleted root files" ∧
    (execute_undo_trash c8s).trashed_items = [] :=
  ⟨rfl, rfl, rfl, rfl⟩

theorem ne_nil_of_isEmpty_false {α : Type} (l : List α) (h : l.isEmpty = false) :
    l ≠ [] := by
  intro hc
  rw [hc] at h
  exact absurd h (by simp)

theorem length_pos_of_isEmpty_false {α : Type} (l : List α)
    (h : ¬ l.isEmpty = true) : 0 < l.length :=
  List.length_pos.mpr (ne_nil_of_isEmpty_false l (Bool.eq_false_iff.mpr h))

theorem inv_ite (c : Prop) [inst : Decidable c] (A B : App)
    (hA : (A.scan_results ≠ [] → A.scanner_index < A.scan_results.length) ∧
      (A.trashed_items ≠ [] → A.session_trash_index < A.trashed_items.length) ∧
      (A.trashed_items = [] → A.session_trash_index = 0))
    (hB : (B.scan_results ≠ [] → B.scanner_index < B.scan_results.length) ∧
      (B.trashed_items ≠ [] → B.session_trash_index < B.trashed_items.length) ∧
      (B.trashed_items = [] → B.session_trash_index = 0)) :
    ((if c then A else B).scan_results ≠ [] →
      (if c then A else B).scanner_index < (if c then A else B).scan_results.length) ∧
    ((if c then A else B).trashed_items ≠ [] →
      (if c then A else B).session_trash_index < (if c then A else B).trashed_items.length) ∧
    ((if c then A else B).trashed_items = [] →
      (if c then A else B).session_trash_index = 0) := by
  by_cases h : c
  · rw [if_pos h]
    exact hA
  · rw [if_neg h]
    exact hB

theorem inv_next_item (s : App)
    (h1 : s.scan_results ≠ [] → s.scanner_index < s.scan_results.length)
    (h2 : s.trashed_items ≠ [] → s.session_trash_index < s.trashed_items.length)
    (h3 : s.trashed_items = [] → s.session_trash_index = 0) :
    ((next_item s).scan_results ≠ [] →
      (next_item s).scanner_index < (next_item s).scan_results.length) ∧
    ((next_item s).trashed_items ≠ [] →
      (next_item s).session_trash_index < (next_item s).trashed_items.length) ∧
    ((next_item s).trashed_items = [] → (next_item s).session_trash_index = 0) := by
  unfold next_item
  cases htab : s.active_tab
  case System => exact ⟨h1, h2, h3⟩
  case Developer => exact ⟨h1, h2, h3⟩
  case Apps => exact ⟨h1, h2, h3⟩
  case DeepScanner =>
    by_cases hemp : s.scan_results.isEmpty = true
    · rw [if_pos hemp]
      exact ⟨h1, h2, h3⟩
    · rw [if_neg hemp]
      exact ⟨fun _ => Nat.mod_lt _ (length_pos_of_isEmpty_false _ hemp), h2, h3⟩
  case SessionTrash =>
    by_cases hemp : s.trashed_items.isEmpty = true
    · rw [if_pos hemp]
      exact ⟨h1, h2, h3⟩
    · rw [if_neg hemp]
      refine ⟨h1, fun _ => Nat.mod_lt _ (length_pos_of_isEmpty_false _ hemp), ?_⟩
      intro hc
      exact absurd hc (ne_nil_of_isEmpty_false _ (Bool.eq_false_iff.mpr hemp))

theorem inv_prev_item (s : App)
    (h1 : s.scan_results ≠ [] → s.scanner_index < s.scan_results.length)
    (h2 : s.trashed_items ≠ [] → s.session_trash_index < s.trashed_items.length)
    (h3 : s.trashed_items = [] → s.session_trash_index = 0) :
    ((prev_item s).scan_results ≠ [] →
      (prev_item s).scanner_index < (prev_item s).scan_results.length) ∧
    ((prev_item s).trashed_items ≠ [] →
      (prev_item s).session_trash_index < (prev_item s).trashed_items.length) ∧
    ((prev_item s).trashed_items = [] → (prev_item s).session_trash_index = 0) := by
  unfold prev_item
  cases htab : s.active_tab
  case System =>
    by_cases hi : s.system_index > 0
    · rw [if_pos hi]
      exact ⟨h1, h2, h3⟩
    · rw [if_neg hi]
      exact ⟨h1, h2, h3⟩
  case Developer =>
    by_cases hi : s.dev_index > 0
    · rw [if_pos hi]
      exact ⟨h1, h2, h3⟩
    · rw [if_neg hi]
      exact ⟨h1, h2, h3⟩
  case Apps =>
    by_cases hi : s.apps_index > 0
    · rw [if_pos hi]
      exact ⟨h1, h2, h3⟩
    · rw [if_neg hi]
      exact ⟨h1, h2, h3⟩
  case DeepScanner =>
    by_cases hemp : s.scan_results.isEmpty = true
    · rw [if_pos hemp]
      exact ⟨h1, h2, h3⟩
    · rw [if_neg hemp]
      have hpos := length_pos_of_isEmpty_false _ hemp
      have hlt := h1 (ne_nil_of_isEmpty_false _ (Bool.eq_false_iff.mpr hemp))
      by_cases hi : s.scanner_index > 0
      · rw [if_pos hi]
        refine ⟨fun _ => ?_, h2, h3⟩
        show s.scanner_index - 1 < s.scan_results.length
        omega
      · rw [if_neg hi]
        refine ⟨fun _ => ?_, h2, h3⟩
        show s.scan_results.length - 1 < s.scan_results.length
        omega
  case SessionTrash =>
    by_cases hemp : s.trashed_items.isEmpty = true
    · rw [if_pos hemp]
      exact ⟨h1, h2, h3⟩
    · rw [if_neg hemp]
      have hpos := length_pos_of_isEmpty_false _ hemp
      have hne := ne_nil_of_isEmpty_false _ (Bool.eq_false_iff.mpr hemp)
      have hlt := h2 hne
      by_cases hi : s.session_trash_index > 0
      · rw [if_pos hi]
        refine ⟨h1, fun _ => ?_, fun hc => absurd hc hne⟩
        show s.session_trash_index - 1 < s.trashed_items.length
        omega
      · rw [if_neg hi]
        refine ⟨h1, fun _ => ?_, fun hc => absurd hc hne⟩
        show s.trashed_items.length - 1 < s.trashed_items.length
        omega

theorem inv_toggle_selection (s : App)
    (h1 : s.scan_results ≠ [] → s.scanner_index < s.scan_results.length)
    (h2 : s.trashed_items ≠ [] → s.session_trash_index < s.trashed_items.length)
    (h3 : s.trashed_items = [] → s.session_trash_index = 0) :
    ((toggle_selection s).scan_results ≠ [] →
      (toggle_selection s).scanner_index < (toggle_selection s).scan_results.length) ∧
    ((toggle_selection s).trashed_items ≠ [] →
      (toggle_selection s).session_trash_index < (toggle_selection s).trashed_items.length) ∧
    ((toggle_selection s).trashed_items = [] →
      (toggle_selection s).session_trash_index = 0) := by
  unfold toggle_selection
  cases htab : s.active_tab
  case System => exact ⟨h1, h2, h3⟩
  case Developer => exact ⟨h1, h2, h3⟩
  case Apps => exact ⟨h1, h2, h3⟩
  case SessionTrash => exact ⟨h1, h2, h3⟩
  case DeepScanner =>
    by_cases hemp : s.scan_results.isEmpty = true
    · rw [if_pos hemp]
      exact ⟨h1, h2, h3⟩
    · rw [if_neg hemp]
      rcases hg : s.scan_results[s.scanner_index]? with _ | entry
      · exact ⟨h1, h2, h3⟩
      · exact inv_ite _ _ _ ⟨h1, h2, h3⟩ ⟨h1, h2, h3⟩

theorem inv_drill_down (s : App)
    (h1 : s.scan_results ≠ [] → s.scanner_index < s.scan_results.length)
    (h2 : s.trashed_items ≠ [] → s.session_trash_index < s.trashed_items.length)
    (h3 : s.trashed_items = [] → s.session_trash_index = 0) :
    ((drill_down s).scan_results ≠ [] →
      (drill_down s).scanner_index < (drill_down s).scan_results.length) ∧
    ((drill_down s).trashed_items ≠ [] →
      (drill_down s).session_trash_index < (drill_down s).trashed_items.length) ∧
    ((drill_down s).trashed_items = [] → (drill_down s).session_trash_index = 0) := by
  unfold drill_down
  by_cases hemp : s.scan_results.isEmpty = true
  · rw [if_pos hemp]
    exact ⟨h1, h2, h3⟩
  · rw [if_neg hemp]
    rcases hg : s.scan_results[s.scanner_index]? with _ | sel
    · exact ⟨h1, h2, h3⟩
    · exact inv_ite _ _ _ ⟨fun hne => List.length_pos.mpr hne, h2, h3⟩ ⟨h1, h2, h3⟩

theorem inv_drill_up (s : App)
    (h1 : s.scan_results ≠ [] → s.scanner_index < s.scan_results.length)
    (h2 : s.trashed_items ≠ [] → s.session_trash_index < s.trashed_items.length)
    (h3 : s.trashed_items = [] → s.session_trash_index = 0) :
    ((drill_up s).scan_results ≠ [] →
      (drill_up s).scanner_index < (drill_up s).scan_results.length) ∧
    ((drill_up s).trashed_items ≠ [] →
      (drill_up s).session_trash_index < (drill_up s).trashed_items.length) ∧
    ((drill_up s).trashed_items = [] → (drill_up s).session_trash_index = 0) := by
  unfold drill_up
  by_cases hp : s.current_scan_path = []
  · rw [if_pos hp]
    exact ⟨h1, h2, h3⟩
  · rw [if_neg hp]
    exact ⟨fun hne => List.length_pos.mpr hne, h2, h3⟩

theorem inv_remove (s : App) (items1 : List TrashedItem)
    (hlen1 : items1.length = s.trashed_items.length - 1)
    (hlt : s.session_trash_index < s.trashed_items.length)
    (h1 : s.scan_results ≠ [] → s.scanner_index < s.scan_results.length) :
    (s.scan_results ≠ [] → s.scanner_index < s.scan_results.length) ∧
    (items1 ≠ [] →
      (if s.session_trash_index ≥ items1.length ∧ s.session_trash_index > 0 then
        s.session_trash_index - 1
      else s.session_trash_index) < items1.length) ∧
    (items1 = [] →
      (if s.session_trash_index ≥ items1.length ∧ s.session_trash_index > 0 then
        s.session_trash_index - 1
      else s.session_trash_index) = 0) := by
  by_cases hc : s.session_trash_index ≥ items1.length ∧ s.session_trash_index > 0
  · rw [if_pos hc]
    refine ⟨h1, fun hne => ?_, fun hc2 => ?_⟩
    · have := List.length_pos.mpr hne
      omega
    · have hz : items1.length = 0 := by
        rw [hc2]
        rfl
      omega
  · rw [if_neg hc]
    refine ⟨h1, fun hne => ?_, fun hc2 => ?_⟩
    · have := List.length_pos.mpr hne
      omega
    · have hz : items1.length = 0 := by
        rw [hc2]
        rfl
      omega

theorem inv_execute_session_trash_delete (s : App)
    (h1 : s.scan_results ≠ [] → s.scanner_index < s.scan_results.length)
    (h2 : s.trashed_items ≠ [] → s.session_trash_index < s.trashed_items.length)
    (h3 : s.trashed_items = [] → s.session_trash_index = 0) :
    ((execute_session_trash_delete s).scan_results ≠ [] →
      (execute_session_trash_delete s).scanner_index <
        (execute_session_trash_delete s).scan_results.length) ∧
    ((execute_session_trash_delete s).trashed_items ≠ [] →
      (execute_session_trash_delete s).session_trash_index <
        (execute_session_trash_delete s).trashed_items.length) ∧
    ((execute_session_trash_delete s).trashed_items = [] →
      (execute_session_trash_delete s).session_trash_index = 0) := by
  unfold execute_session_trash_delete
  by_cases hemp : s.trashed_items.isEmpty = true
  · rw [if_pos hemp]
    exact ⟨h1, h2, h3⟩
  · rw [if_neg hemp]
    have hne := ne_nil_of_isEmpty_false _ (Bool.eq_false_iff.mpr hemp)
    have hlt := h2 hne
    rcases hg : s.trashed_items[s.session_trash_index]? with _ | item
    · exact ⟨h1, h2, h3⟩
    · have hlen1 : (s.trashed_items.eraseIdx s.session_trash_index).length =
          s.trashed_items.length - 1 := by
        rw [List.length_eraseIdx, if_pos hlt]
      exact inv_remove s _ hlen1 hlt h1

theorem inv_execute_undo_trash (s : App)
    (h1 : s.scan_results ≠ [] → s.scanner_index < s.scan_results.length)
    (h2 : s.trashed_items ≠ [] → s.session_trash_index < s.trashed_items.length)
    (h3 : s.trashed_items = [] → s.session_trash_index = 0) :
    ((execute_undo_trash s).scan_results ≠ [] →
      (execute_undo_trash s).scanner_index <
        (execute_undo_trash s).scan_results.length) ∧
    ((execute_undo_trash s).trashed_items ≠ [] →
      (execute_undo_trash s).session_trash_index <
        (execute_undo_trash s).trashed_items.length) ∧
    ((execute_undo_trash s).trashed_items = [] →
      (execute_undo_trash s).session_trash_index = 0) := by
  unfold execute_undo_trash
  by_cases hg : (!(decide (s.active_tab = ActiveTab.SessionTrash)) ||
      s.trashed_items.isEmpty) = true
  · rw [if_pos hg]
    exact ⟨h1, h2, h3⟩
  · rw [if_neg hg]
    have hemp : s.trashed_items.isEmpty = false := by
      rcases Bool.or_eq_false_iff.mp (Bool.eq_false_iff.mpr hg) with ⟨_, hx⟩
      exact hx
    have hne := ne_nil_of_isEmpty_false _ hemp
    have hlt := h2 hne
    rcases hgi : s.trashed_items[s.session_trash_index]? with _ | item
    · exact ⟨h1, h2, h3⟩
    · have hlen1 : (s.trashed_items.eraseIdx s.session_trash_index).length =
          s.trashed_items.length - 1 := by
        rw [List.length_eraseIdx, if_pos hlt]
      exact inv_remove s _ hlen1 hlt h1

theorem inv_execute_deep_scanner_trash (env : Env) (s : App)
    (h1 : s.scan_results ≠ [] → s.scanner_index < s.scan_results.length)
    (h2 : s.trashed_items ≠ [] → s.session_trash_index < s.trashed_items.length)
    (h3 : s.trashed_items = [] → s.session_trash_index = 0) :
    ((execute_deep_scanner_trash env s).scan_results ≠ [] →
      (execute_deep_scanner_trash env s).scanner_index <
        (execute_deep_scanner_trash env s).scan_results.length) ∧
    ((execute_deep_scanner_trash env s).trashed_items ≠ [] →
      (execute_deep_scanner_trash env s).session_trash_index <
        (execute_deep_scanner_trash env s).trashed_items.length) ∧
    ((execute_deep_scanner_trash env s).trashed_items = [] →
      (execute_deep_scanner_trash env s).session_trash_index = 0) := by
  unfold execute_deep_scanner_trash
  by_cases hemp : s.selected_paths.isEmpty = true
  · rw [if_pos hemp]
    exact ⟨h1, h2, h3⟩
  · rw [if_neg hemp]
    by_cases hcond : ((s.selected_paths.any fun p => !(env.home.isPrefixOf p)) &&
        !s.show_root_warning) = true
    · rw [if_pos hcond]
      exact ⟨h1, h2, h3⟩
    · rw [if_neg hcond]
      refine ⟨fun hne => List.length_pos.mpr hne, fun hne => ?_, fun hc => ?_⟩
      · show s.session_trash_index <
          (s.trashed_items ++ (trashPaths env s.fs s.selected_paths).2).length
        have hne' : s.trashed_items ++ (trashPaths env s.fs s.selected_paths).2 ≠ [] := hne
        by_cases hts : s.trashed_items = []
        · rw [h3 hts]
          exact List.length_pos.mpr hne'
        · have := h2 hts
          rw [List.length_append]
          omega
      · show s.session_trash_index = 0
        have hc' : s.trashed_items ++ (trashPaths env s.fs s.selected_paths).2 = [] := hc
        exact h3 (List.append_eq_nil.mp hc').1

theorem inv_next_tab (s : App)
    (h1 : s.scan_results ≠ [] → s.scanner_index < s.scan_results.length)
    (h2 : s.trashed_items ≠ [] → s.session_trash_index < s.trashed_items.length)
    (h3 : s.trashed_items = [] → s.session_trash_index = 0) :
    ((next_tab s).scan_results ≠ [] →
      (next_tab s).scanner_index < (next_tab s).scan_results.length) ∧
    ((next_tab s).trashed_items ≠ [] →
      (next_tab s).session_trash_index < (next_tab s).trashed_items.length) ∧
    ((next_tab s).trashed_items = [] → (next_tab s).session_trash_index = 0) := by
  unfold next_tab
  exact ⟨h1, h2, h3⟩

theorem inv_prev_tab (s : App)
    (h1 : s.scan_results ≠ [] → s.scanner_index < s.scan_results.length)
    (h2 : s.trashed_items ≠ [] → s.session_trash_index < s.trashed_items.length)
    (h3 : s.trashed_items = [] → s.session_trash_index = 0) :
    ((prev_tab s).scan_results ≠ [] →
      (prev_tab s).scanner_index < (prev_tab s).scan_results.length) ∧
    ((prev_tab s).trashed_items ≠ [] →
      (prev_tab s).session_trash_index < (prev_tab s).trashed_items.length) ∧
    ((prev_tab s).trashed_items = [] → (prev_tab s).session_trash_index = 0) := by
  unfold prev_tab
  exact ⟨h1, h2, h3⟩

theorem inv_execute_clean (env : Env) (s : App)
    (h1 : s.scan_results ≠ [] → s.scanner_index < s.scan_results.length)
    (h2 : s.trashed_items ≠ [] → s.session_trash_index < s.trashed_items.length)
    (h3 : s.trashed_items = [] → s.session_trash_index = 0) :
    ((execute_clean env s).scan_results ≠ [] →
      (execute_clean env s).scanner_index < (execute_clean env s).scan_results.length) ∧
    ((execute_clean env s).trashed_items ≠ [] →
      (execute_clean env s).session_trash_index <
        (execute_clean env s).trashed_items.length) ∧
    ((execute_clean env s).trashed_items = [] →
      (execute_clean env s).session_trash_index = 0) := by
  unfold execute_clean
  cases htab : s.active_tab
  case System => exact ⟨h1, h2, h3⟩
  case Developer => exact ⟨h1, h2, h3⟩
  case Apps => exact ⟨h1, h2, h3⟩
  case DeepScanner => exact inv_execute_deep_scanner_trash env s h1 h2 h3
  case SessionTrash => exact inv_execute_session_trash_delete s h1 h2 h3

theorem inv_on_key_right (s : App)
    (h1 : s.scan_results ≠ [] → s.scanner_index < s.scan_results.length)
    (h2 : s.trashed_items ≠ [] → s.session_trash_index < s.trashed_items.length)
    (h3 : s.trashed_items = [] → s.session_trash_index = 0) :
    ((on_key_right s).scan_results ≠ [] →
      (on_key_right s).scanner_index < (on_key_right s).scan_results.length) ∧
    ((on_key_right s).trashed_items ≠ [] →
      (on_key_right s).session_trash_index < (on_key_right s).trashed_items.length) ∧
    ((on_key_right s).trashed_items = [] → (on_key_right s).session_trash_index = 0) := by
  unfold on_key_right
  exact inv_ite _ _ _ (inv_drill_down s h1 h2 h3) (inv_next_tab s h1 h2 h3)

theorem inv_on_key_left (s : App)
    (h1 : s.scan_results ≠ [] → s.scanner_index < s.scan_results.length)
    (h2 : s.trashed_items ≠ [] → s.session_trash_index < s.trashed_items.length)
    (h3 : s.trashed_items = [] → s.session_trash_index = 0) :
    ((on_key_left s).scan_results ≠ [] →
      (on_key_left s).scanner_index < (on_key_left s).scan_results.length) ∧
    ((on_key_left s).trashed_items ≠ [] →
      (on_key_left s).session_trash_index < (on_key_left s).trashed_items.length) ∧
    ((on_key_left s).trashed_items = [] → (on_key_left s).session_trash_index = 0) := by
  unfold on_key_left
  exact inv_ite _ _ _ (inv_drill_up s h1 h2 h3) (inv_prev_tab s h1 h2 h3)

theorem inv_on_key_esc (s : App)
    (h1 : s.scan_results ≠ [] → s.scanner_index < s.scan_results.length)
    (h2 : s.trashed_items ≠ [] → s.session_trash_index < s.trashed_items.length)
    (h3 : s.trashed_items = [] → s.session_trash_index = 0) :
    ((on_key_esc s).scan_results ≠ [] →
      (on_key_esc s).scanner_index < (on_key_esc s).scan_results.length) ∧
    ((on_key_esc s).trashed_items ≠ [] →
      (on_key_esc s).session_trash_index < (on_key_esc s).trashed_items.length) ∧
    ((on_key_esc s).trashed_items = [] → (on_key_esc s).session_trash_index = 0) := by
  unfold on_key_esc
  exact inv_ite _ _ _ ⟨h1, h2, h3⟩ ⟨h1, h2, h3⟩

theorem inv_init (env : Env) (fs0 : Fs) :
    ((App.init env fs0).scan_results ≠ [] →
      (App.init env fs0).scanner_index < (App.init env fs0).scan_results.length) ∧
    ((App.init env fs0).trashed_items ≠ [] →
      (App.init env fs0).session_trash_index < (App.init env fs0).trashed_items.length) ∧
    ((App.init env fs0).trashed_items = [] →
      (App.init env fs0).session_trash_index = 0) :=
  ⟨fun hne => List.length_pos.mpr hne, fun hne => absurd rfl hne, fun _ => rfl⟩

theorem reachable_inv (env : Env) (s : App) (h : Reachable env s) :
    (s.scan_results ≠ [] → s.scanner_index < s.scan_results.length) ∧
    (s.trashed_items ≠ [] → s.session_trash_index < s.trashed_items.length) ∧
    (s.trashed_items = [] → s.session_trash_index = 0) := by
  induction h with
  | init fs0 => exact inv_init env fs0
  | key_down _ ih => exact inv_next_item _ ih.1 ih.2.1 ih.2.2
  | key_up _ ih => exact inv_prev_item _ ih.1 ih.2.1 ih.2.2
  | key_right _ ih => exact inv_on_key_right _ ih.1 ih.2.1 ih.2.2
  | key_left _ ih => exact inv_on_key_left _ ih.1 ih.2.1 ih.2.2
  | key_tab _ ih => exact inv_next_tab _ ih.1 ih.2.1 ih.2.2
  | key_backtab _ ih => exact inv_prev_tab _ ih.1 ih.2.1 ih.2.2
  | key_space _ ih => exact inv_toggle_selection _ ih.1 ih.2.1 ih.2.2
  | key_enter _ ih => exact inv_execute_clean env _ ih.1 ih.2.1 ih.2.2
  | key_u _ ih => exact inv_execute_undo_trash _ ih.1 ih.2.1 ih.2.2
  | key_esc _ ih => exact inv_on_key_esc _ ih.1 ih.2.1 ih.2.2
  | key_q _ ih => exact ⟨ih.1, ih.2.1, ih.2.2⟩

theorem noop_next_prev_scanner (s : App) (ht : s.active_tab = .DeepScanner)
    (he : s.scan_results = []) : next_item s = s ∧ prev_item s = s := by
  have hb : s.scan_results.isEmpty = true := by
    rw [he]
    rfl
  constructor
  · unfold next_item
    rw [ht]
    exact if_pos hb
  · unfold prev_item
    rw [ht]
    exact if_pos hb

theorem noop_next_prev_trash (s : App) (ht : s.active_tab = .SessionTrash)
    (he : s.trashed_items = []) : next_item s = s ∧ prev_item s = s := by
  have hb : s.trashed_items.isEmpty = true := by
    rw [he]
    rfl
  constructor
  · unfold next_item
    rw [ht]
    exact if_pos hb
  · unfold prev_item
    rw [ht]
    exact if_pos hb

/-- C10: on every state reachable from App::new through the key events of
the main loop, the deep-scanner cursor is within bounds whenever the scan
result list is nonempty and the session-trash cursor is within bounds
whenever the trash list is nonempty, so the direct indexing in
toggle_selection and drill_down and the list removals in
execute_session_trash_delete and execute_undo_trash never go out of bounds;
and on the scanner or session-trash tab with the relevant list empty,
next_item and prev_item leave the state unchanged. -/
theorem C10_cursor_in_bounds (env : Env) (s : App) (h : Reachable env s) :
    (s.scan_results ≠ [] → s.scanner_index < s.scan_results.length) ∧
    (s.trashed_items ≠ [] → s.session_trash_index < s.trashed_items.length) ∧
    (s.active_tab = .DeepScanner → s.scan_results = [] →
      next_item s = s ∧ prev_item s = s) ∧
    (s.active_tab = .SessionTrash → s.trashed_items = [] →
      next_item s = s ∧ prev_item s = s) := by
  have hinv := reachable_inv env s h
  exact ⟨hinv.1, hinv.2.1,
    fun ht he => noop_next_prev_scanner s ht he,
    fun ht he => noop_next_prev_trash s ht he⟩

theorem C10_cursor_in_bounds_witness :
    (c8s.scan_results ≠ [] → c8s.scanner_index < c8s.scan_results.length) ∧
    (c8s.trashed_items ≠ [] → c8s.session_trash_index < c8s.trashed_items.length) :=
  have h := C10_cursor_in_bounds wEnv c8s
    (Reachable.key_tab (Reachable.key_enter (Reachable.key_enter (Reachable.key_space
      (Reachable.key_left (Reachable.key_left (Reachable.key_tab (Reachable.key_tab
        (Reachable.key_tab (Reachable.init _))))))))))
  ⟨h.1, h.2.1⟩

/-- C1: on a well-formed filesystem, a successful reversible put followed by
restore on the returned record succeeds, leaves the whole subtree at the
original path exactly as it was before the put (in particular the file
content is unchanged), and leaves no metadata sidecar in the info
directory. -/
theorem C1_round_trip (env : Env) (fs fs1 : Fs) (p : FsPath) (item : TrashedItem)
    (hwf : fs.wf = true) (hex : (fs.get p).isSome = true)
    (hrev : env.home.isPrefixOf p = true)
    (hput : move_to_trash env fs p = (fs1, .ok item)) :
    (restore_trash_item fs1 item).2 = .ok () ∧
    (∀ q, p <+: q → ((restore_trash_item fs1 item).1).get q = fs.get q) ∧
    ((restore_trash_item fs1 item).1).get item.trash_info_path = none := by
  obtain ⟨fa, fb, safe, hc1, hc2, hsafe, hitem, hren⟩ :=
    move_rev_ok env fs p fs1 item hrev hput
  have hfree := findSafeName_free _ _ _ _ _ _ _ _ hsafe
  have hnames := put_names_fresh env fs fa fb safe hc1 hc2 hfree
  have hfresh3 : ∀ r, (filesDir env ++ [safe]) <+: r →
      (fb.writeFile (infoDir env ++ [safe ++ ".trashinfo"])
        (infoContent p env.now)).get r = none :=
    put_dst_subtree_fresh env fs fa fb safe (infoContent p env.now) hwf hc1 hc2 hfree
  obtain ⟨hsome3, hnsd, hdst3, hentries⟩ := rename_ok_facts _ _ _ _ hren
  have hF1 : ¬ p <+: filesDir env :=
    fun hc => hnsd (hc.trans (List.prefix_append (filesDir env) [safe]))
  have hnotdstp : ¬ (filesDir env ++ [safe]) <+: p := by
    intro hc
    rw [hfresh3 p hc] at hsome3
    exact absurd hsome3 (by simp)
  obtain ⟨nroot, hnroot⟩ := Option.isSome_iff_exists.mp hex
  have htipne : ∀ q : FsPath, fs.get q = some nroot ∨ (∃ b, fs.get q = some (.dir b)) →
      q ≠ infoDir env ++ [safe ++ ".trashinfo"] := by
    intro q hq hc
    rcases hq with hq | ⟨b, hq⟩
    · rw [hc, hnames.2] at hq
      exact absurd hq (by simp)
    · rw [hc, hnames.2] at hq
      exact absurd hq (by simp)
  have htrans3 : ∀ q, p <+: q → q ≠ infoDir env ++ [safe ++ ".trashinfo"] →
      (fb.writeFile (infoDir env ++ [safe ++ ".trashinfo"])
        (infoContent p env.now)).get q = fs.get q := by
    intro q hpq hqt
    rw [get_writeFile, if_neg hqt]
    rcases createDirAllAux_get (infoDir env) fa [] fb hc2 q with hA | hA
    · rw [hA]
      rcases createDirAllAux_get (filesDir env) fs [] fa hc1 q with hB | hB
      · exact hB
      · obtain ⟨_, _, k, hk0, hkl, hkq⟩ := hB
        rw [List.nil_append] at hkq
        exact absurd (hpq.trans (hkq ▸ List.take_prefix k (filesDir env))) hF1
    · obtain ⟨hfaq, _, k, hk0, hkl, hkq⟩ := hA
      rw [List.nil_append] at hkq
      have hqinfo : q <+: infoDir env := hkq ▸ List.take_prefix k (infoDir env)
      have hpinfo : p <+: infoDir env := hpq.trans hqinfo
      exfalso
      unfold infoDir at hpinfo
      rcases List.prefix_concat_iff.mp hpinfo with hp1 | hp1
      · have hqp : q = p := by
          refine prefix_antisymm q p ?_ hpq
          rw [hp1]
          exact hqinfo
        rw [hqp] at hfaq
        rw [createDirAll_get_some fs (filesDir env) fa hc1 p nroot hnroot] at hfaq
        exact absurd hfaq (by simp)
      · exact hF1 (hp1.trans (List.prefix_append (trashRoot env) ["files"]))
  have hfresh1 : ∀ r, p <+: r → fs1.get r = none := by
    intro r hpr
    unfold Fs.get
    rw [hentries]
    refine lookup_ren_srcside _ p (filesDir env ++ [safe]) r hpr hnsd
      (fun r2 h2 => hfresh3 r2 h2) ?_
    intro hc
    have hc' : (fb.writeFile (infoDir env ++ [safe ++ ".trashinfo"])
        (infoContent p env.now)).get p = none := hc
    rw [hc'] at hsome3
    exact absurd hsome3 (by simp)
  have hchain : ∀ k, 0 < k → k < p.length →
      ∃ b, fs1.get (p.take k) = some (.dir b) := by
    intro k hk0 hklt
    obtain ⟨b, hb⟩ := wf_ancestor fs hwf p nroot hnroot k hk0 hklt
    have h1 := createDirAll_get_some fs (filesDir env) fa hc1 _ _ hb
    have h2 := createDirAll_get_some fa (infoDir env) fb hc2 _ _ h1
    have htne : p.take k ≠ infoDir env ++ [safe ++ ".trashinfo"] :=
      htipne (p.take k) (Or.inr ⟨b, hb⟩)
    have h3 : (fb.writeFile (infoDir env ++ [safe ++ ".trashinfo"])
        (infoContent p env.now)).get (p.take k) = some (.dir b) := by
      rw [get_writeFile, if_neg htne]
      exact h2
    refine ⟨b, ?_⟩
    unfold Fs.get
    rw [hentries]
    have hnp : ¬ p <+: p.take k := by
      intro hc
      have := List.IsPrefix.length_le hc
      rw [List.length_take] at this
      omega
    have hnd : ¬ (filesDir env ++ [safe]) <+: p.take k := by
      intro hc
      exact hnotdstp (hc.trans (List.take_prefix k p))
    rw [lookup_ren_outside _ p (filesDir env ++ [safe]) (p.take k) hnp hnd]
    exact h3
  have hcd : fs1.createDirAll p.dropLast = .ok fs1 := by
    refine createDirAll_all_present fs1 p.dropLast ?_
    intro k hk0 hkl
    rw [List.length_dropLast] at hkl
    have hklt : k < p.length := by omega
    obtain ⟨b, hb⟩ := hchain k hk0 hklt
    refine ⟨b, ?_⟩
    rw [List.dropLast_eq_take, List.take_take]
    have hmin : k ⊓ (p.length - 1) = k := by omega
    rw [hmin]
    exact hb
  have hgetdst : fs1.get (filesDir env ++ [safe]) =
      (fb.writeFile (infoDir env ++ [safe ++ ".trashinfo"])
        (infoContent p env.now)).get p := by
    unfold Fs.get
    rw [hentries]
    have hd := lookup_ren_dstside _ p (filesDir env ++ [safe]) (filesDir env ++ [safe])
      (List.prefix_refl _) hnsd (fun r hr => hfresh3 r hr)
    rw [hd, List.drop_length, List.append_nil]
  have hca : ¬ ((fs1.get (filesDir env ++ [safe])).isNone = true) := by
    rw [hgetdst]
    rcases Option.isSome_iff_exists.mp hsome3 with ⟨v, hv⟩
    rw [hv]
    simp
  have hcb : ¬ ((filesDir env ++ [safe]).isPrefixOf p = true) := by
    intro hc
    exact hnotdstp (List.isPrefixOf_iff_prefix.mp hc)
  have hcc : ¬ ((fs1.get p).isSome = true) := by
    rw [hfresh1 p (List.prefix_refl p)]
    simp
  have hcdisj : (decide (p.dropLast = []) || fs1.isDir p.dropLast) = true := by
    by_cases hple : p.dropLast = []
    · rw [hple]
      rfl
    · have hlen2 : 1 ≤ p.length - 1 := by
        have : p.dropLast.length ≠ 0 := by
          intro hc
          exact hple (List.eq_nil_of_length_eq_zero hc)
        rw [List.length_dropLast] at this
        omega
      obtain ⟨b, hb⟩ := hchain (p.length - 1) (by omega) (by omega)
      have hdir : fs1.isDir p.dropLast = true := by
        unfold Fs.isDir
        rw [List.dropLast_eq_take, hb]
      rw [hdir, Bool.or_true]
  have hcdn : ¬ ((!(decide (p.dropLast = []) || fs1.isDir p.dropLast)) = true) := by
    rw [hcdisj]
    simp
  have hren2 : fs1.rename (filesDir env ++ [safe]) p =
      .ok ⟨fs1.entries.map (fun e =>
        if (filesDir env ++ [safe]).isPrefixOf e.1 then
          (p ++ e.1.drop (filesDir env ++ [safe]).length, e.2)
        else e)⟩ := by
    unfold Fs.rename
    rw [if_neg hca, if_neg hcb, if_neg (by rw [hfresh1 p (List.prefix_refl p)]; simp),
      if_neg hcdn]
  have hrestore : restore_trash_item fs1
      ⟨p, filesDir env ++ [safe], infoDir env ++ [safe ++ ".trashinfo"], false⟩ =
      ((⟨fs1.entries.map (fun e =>
          if (filesDir env ++ [safe]).isPrefixOf e.1 then
            (p ++ e.1.drop (filesDir env ++ [safe]).length, e.2)
          else e)⟩ : Fs).eraseFile (infoDir env ++ [safe ++ ".trashinfo"]),
        .ok ()) := by
    unfold restore_trash_item
    rw [if_neg Bool.false_ne_true]
    split
    · rename_i e heq
      have heq' : fs1.createDirAll p.dropLast = .error e := heq
      rw [hcd] at heq'
      exact absurd heq' (by simp)
    · rename_i fs1a heq
      have heq' : fs1.createDirAll p.dropLast = .ok fs1a := heq
      rw [hcd] at heq'
      injection heq' with hh
      subst hh
      split
      · rename_i e heq2
        have heq2' : fs1.rename (filesDir env ++ [safe]) p = .error e := heq2
        rw [hren2] at heq2'
        exact absurd heq2' (by simp)
      · rename_i fs2a heq2
        have heq2' : fs1.rename (filesDir env ++ [safe]) p = .ok fs2a := heq2
        rw [hren2] at heq2'
        injection heq2' with hh2
        subst hh2
        rfl
  rw [hitem]
  refine ⟨?_, ?_, ?_⟩
  · rw [hrestore]
  · intro q hpq
    rw [hrestore]
    by_cases hqt : q = infoDir env ++ [safe ++ ".trashinfo"]
    · rw [get_eraseFile, if_pos hqt, hqt, hnames.2]
    · rw [get_eraseFile, if_neg hqt]
      have hback : (⟨fs1.entries.map (fun e =>
          if (filesDir env ++ [safe]).isPrefixOf e.1 then
            (p ++ e.1.drop (filesDir env ++ [safe]).length, e.2)
          else e)⟩ : Fs).get q =
          fs1.get ((filesDir env ++ [safe]) ++ q.drop p.length) := by
        unfold Fs.get
        exact lookup_ren_dstside _ (filesDir env ++ [safe]) p q hpq hnotdstp
          (fun r hr => hfresh1 r hr)
      rw [hback]
      have hfwd : fs1.get ((filesDir env ++ [safe]) ++ q.drop p.length) =
          (fb.writeFile (infoDir env ++ [safe ++ ".trashinfo"])
            (infoContent p env.now)).get
            (p ++ ((filesDir env ++ [safe]) ++ q.drop p.length).drop
              (filesDir env ++ [safe]).length) := by
        unfold Fs.get
        rw [hentries]
        exact lookup_ren_dstside _ p (filesDir env ++ [safe]) _
          (List.prefix_append _ _) hnsd (fun r hr => hfresh3 r hr)
      rw [hfwd, List.drop_left]
      have hq : p ++ q.drop p.length = q := by
        obtain ⟨t, ht⟩ := hpq
        rw [← ht, List.drop_left]
      rw [hq]
      exact htrans3 q hpq hqt
  · rw [hrestore, get_eraseFile, if_pos rfl]

theorem C1_round_trip_witness :
    (restore_trash_item (move_to_trash wEnv c1fs ["home", "u", "a.txt"]).1
      ⟨["home", "u", "a.txt"],
       ["home", "u", ".local", "share", "Trash", "files", "a.txt"],
       ["home", "u", ".local", "share", "Trash", "info", "a.txt.trashinfo"],
       false⟩).2 = .ok () ∧
    ((restore_trash_item (move_to_trash wEnv c1fs ["home", "u", "a.txt"]).1
      ⟨["home", "u", "a.txt"],
       ["home", "u", ".local", "share", "Trash", "files", "a.txt"],
       ["home", "u", ".local", "share", "Trash", "info", "a.txt.trashinfo"],
       false⟩).1).get ["home", "u", "a.txt"] = c1fs.get ["home", "u", "a.txt"] ∧
    ((restore_trash_item (move_to_trash wEnv c1fs ["home", "u", "a.txt"]).1
      ⟨["home", "u", "a.txt"],
       ["home", "u", ".local", "share", "Trash", "files", "a.txt"],
       ["home", "u", ".local", "share", "Trash", "info", "a.txt.trashinfo"],
       false⟩).1).get
      ["home", "u", ".local", "share", "Trash", "info", "a.txt.trashinfo"] = none := by
  have h := C1_round_trip wEnv c1fs (move_to_trash wEnv c1fs ["home", "u", "a.txt"]).1
    ["home", "u", "a.txt"]
    ⟨["home", "u", "a.txt"],
     ["home", "u", ".local", "share", "Trash", "files", "a.txt"],
     ["home", "u", ".local", "share", "Trash", "info", "a.txt.trashinfo"],
     false⟩
    (by decide) (by decide) (by decide) rfl
  exact ⟨h.1, h.2.1 ["home", "u", "a.txt"] (List.prefix_refl _), h.2.2⟩
